import Mathlib

/-!
The package go-json-tree: the Builder and the Tree

A shallow embedding of `builder.go` and `tree.go`.

* Go strings and byte buffers are Lean `String`s: every test the sources and the
  standard library make on a byte compares it with an ASCII byte, and acts on a
  byte of a multi-byte character as on any other ordinary byte, so the code acts
  on the characters of a text as it does on its UTF-8 bytes.
* A method with a pointer receiver returns an `Outcome`: the receiver after the
  call, and the panic value when the call panicked.  What was written to the
  buffer before a panic stays written.
* The dynamic type of an `interface{}` argument is a constructor of `GoValue`.
-/

namespace JsonTree

/-! ## builder.go -/

/-- The `state` constants of builder.go. -/
inductive state where
  | atRoot
  | inArray
  | inObject
  deriving DecidableEq, Repr

/-- The struct `Builder`: `stack` grows at its end, as `append` does. -/
structure Builder where
  stack : List state
  buffer : String
  afterName : Bool
  deriving DecidableEq, Repr

/-- The zero value of `Builder`: the empty builder. -/
def Builder.empty : Builder := ⟨[], "", false⟩

/-- The receiver after a call, and the value the call panicked with, if it did. -/
structure Outcome where
  self : Builder
  panic : Option String
  deriving DecidableEq, Repr

/-- The call returned normally. -/
def Outcome.ok (o : Outcome) : Bool := o.panic.isNone

/-- A float64 value, given by its IEEE 754 bits as `math.Float64bits` returns
them: bit 63 is the sign, bits 62 .. 52 the exponent field, bits 51 .. 0 the
mantissa field. -/
abbrev Float64 := Nat

/-- The value passed to `Value(value interface{})`, by the `reflect.Kind` of its
dynamic type.  `int` is any of Int, Int8 .. Int64, `uint` any of Uint, Uint8 ..
Uint64, `float` Float32 or Float64, as the float64 `reflect.Value.Float`
returns for it; `other` is every other kind (Uintptr, Complex, Ptr, Slice, Map,
Struct, ...). -/
inductive GoValue where
  | nil
  | string (s : String)
  | int (i : Int)
  | uint (n : Nat)
  | float (x : Float64)
  | bool (b : Bool)
  | other

/-- Method `state`: the last element of the stack, `atRoot` when it is empty. -/
def Builder.state (self : Builder) : state :=
  match self.stack.getLast? with
  | none => state.atRoot
  | some s => s

/-- Method `BeginObject`. -/
def Builder.BeginObject (self : Builder) : Outcome :=
  if self.state = state.inObject then
    ⟨self, some "Can't BeginObject() in an object, need Name() first"⟩
  else
    ⟨{ stack := self.stack ++ [state.inObject]
       buffer := self.buffer ++ "\x7b"
       afterName := false }, none⟩

/-- Method `EndObject`. -/
def Builder.EndObject (self : Builder) : Outcome :=
  if self.state ≠ state.inObject ∨ self.afterName = true then
    ⟨self, some "EndObject() called not at the end of an object"⟩
  else
    ⟨{ self with
       buffer := self.buffer ++ "\x7d,"
       stack := self.stack.dropLast }, none⟩

/-- Method `BeginArray`: the frame it pushes is `inObject`, as in the source. -/
def Builder.BeginArray (self : Builder) : Outcome :=
  if self.state = state.inObject then
    ⟨self, some "Can't BeginArray() in an object, need Name() first"⟩
  else
    ⟨{ stack := self.stack ++ [state.inObject]
       buffer := self.buffer ++ "["
       afterName := false }, none⟩

/-- Method `EndArray`. -/
def Builder.EndArray (self : Builder) : Outcome :=
  if self.state ≠ state.inArray ∨ self.afterName = true then
    ⟨self, some "EndArray() called not at the end of an array"⟩
  else
    ⟨{ self with
       buffer := self.buffer ++ "],"
       stack := self.stack.dropLast }, none⟩

/-- Method `Name`: the name is written between quotes as it is, then a colon. -/
def Builder.Name (self : Builder) (name : String) : Outcome :=
  if self.state ≠ state.inObject then
    ⟨self, some "Name() must be called in an object"⟩
  else
    ⟨{ self with
       buffer := self.buffer ++ "\"" ++ name ++ "\":"
       afterName := true }, none⟩

/-- The text `json.HTMLEscape` writes for one character: the characters less-than,
greater-than and ampersand and the separators U+2028 and U+2029 become a
`\u` escape, every other character is copied. -/
def htmlEscapeChar (c : Char) : List Char :=
  if c = '<' then "\\u003c".data
  else if c = '>' then "\\u003e".data
  else if c = '&' then "\\u0026".data
  else if c.val = 0x2028 then "\\u2028".data
  else if c.val = 0x2029 then "\\u2029".data
  else [c]

/-- Function `json.HTMLEscape` of the standard library, on a text. -/
def HTMLEscape (src : String) : String :=
  ⟨src.data.flatMap htmlEscapeChar⟩

/-- Function `strconv.FormatInt(i, 10)` of the standard library. -/
def FormatInt (i : Int) : String :=
  match i with
  | Int.ofNat n => Nat.repr n
  | Int.negSucc n => "-" ++ Nat.repr (n + 1)

/-- Function `strconv.FormatUint(n, 10)` of the standard library. -/
def FormatUint (n : Nat) : String := Nat.repr n

section
variable (FormatFloat : Float64 → String)

/-- Method `Value`.  `FormatFloat x` stands for the standard library's
`strconv.FormatFloat(x, 'f', -1, 64)`: what does not depend on the text of a
float is proved for every such function, and the function `FormatFloat`
defined further down is the model of the library's.  For a nil interface the
source writes
`null` and goes on to the switch, where `reflect.ValueOf(nil).Kind()` is
`reflect.Invalid`, one of the kinds of the default case. -/
def Builder.Value (self : Builder) (value : GoValue) : Outcome :=
  let self1 : Builder :=
    match value with
    | GoValue.nil => { self with buffer := self.buffer ++ "null" }
    | _ => self
  let written : Option String :=
    match value with
    | GoValue.string s => some (self1.buffer ++ "\"" ++ HTMLEscape s ++ "\"")
    | GoValue.int i => some (self1.buffer ++ FormatInt i)
    | GoValue.uint n => some (self1.buffer ++ FormatUint n)
    | GoValue.float x => some (self1.buffer ++ FormatFloat x)
    | GoValue.bool b => some (self1.buffer ++ (if b then "true" else "false"))
    | GoValue.nil => none
    | GoValue.other => none
  match written with
  | none => ⟨self1, some "Type not supported as JSON value"⟩
  | some buf => ⟨{ self1 with buffer := buf ++ ",", afterName := false }, none⟩

/-- One call of the fluent interface. -/
inductive Call where
  | BeginObject
  | EndObject
  | BeginArray
  | EndArray
  | Name (name : String)
  | Value (value : GoValue)

/-- The method a call names, applied to a receiver. -/
def Call.apply (c : Call) (self : Builder) : Outcome :=
  match c with
  | Call.BeginObject => self.BeginObject
  | Call.EndObject => self.EndObject
  | Call.BeginArray => self.BeginArray
  | Call.EndArray => self.EndArray
  | Call.Name name => self.Name name
  | Call.Value value => self.Value FormatFloat value

/-- A chain of calls `b.c1().c2()...`: it stops at the first call that panics. -/
def Builder.chain (self : Builder) : List Call → Outcome
  | [] => ⟨self, none⟩
  | c :: cs =>
    match c.apply FormatFloat self with
    | ⟨self1, none⟩ => Builder.chain self1 cs
    | ⟨self1, some msg⟩ => ⟨self1, some msg⟩

end

/-! ## encoding/json: the scanner and `Compact`

`Bytes` hands the buffer to `json.Compact` of the standard library, which runs
the scanner of `encoding/json/scanner.go` over the text and drops the bytes the
scanner reports as space.  The scanner is a state machine: `step` names the
state function to call on the next byte. -/

/-- The codes a state function returns (`scanContinue` .. `scanError`). -/
inductive Scan where
  | scanContinue
  | scanBeginLiteral
  | scanBeginObject
  | scanObjectKey
  | scanObjectValue
  | scanEndObject
  | scanBeginArray
  | scanArrayValue
  | scanEndArray
  | scanSkipSpace
  | scanEnd
  | scanError
  deriving DecidableEq, Repr

/-- The entries of the scanner's `parseState` stack. -/
inductive ParseState where
  | parseObjectKey
  | parseObjectValue
  | parseArrayValue
  deriving DecidableEq, Repr

/-- The state functions of scanner.go, as the values `scanner.step` takes. -/
inductive StepFn where
  | BeginValueOrEmpty | BeginValue | BeginStringOrEmpty | BeginString
  | EndValue | EndTop
  | InString | InStringEsc | InStringEscU | InStringEscU1 | InStringEscU12 | InStringEscU123
  | Neg | S1 | S0 | Dot | Dot0 | E | ESign | E0
  | T | Tr | Tru | F | Fa | Fal | Fals | N | Nu | Nul
  | Error
  deriving DecidableEq, Repr

/-- The struct `scanner`.  The head of `parseState` is the last element of the
slice, the innermost open container. -/
structure scanner where
  step : StepFn
  parseState : List ParseState
  err : Option String
  endTop : Bool
  deriving DecidableEq, Repr

/-- Constant `maxNestingDepth`. -/
def maxNestingDepth : Nat := 10000

/-- Method `reset`: the scanner before the first byte. -/
def scanner.reset : scanner := ⟨StepFn.BeginValue, [], none, false⟩

/-- Function `quoteChar`: the byte between apostrophes, as error messages show
it, an apostrophe escaped.  The standard library also escapes a byte that is
not printable, which is written here as it is. -/
def quoteChar (c : Char) : String :=
  if c = Char.ofNat 39 then "'\\''" else "'" ++ String.singleton c ++ "'"

/-- Method `error`: records the error and makes every later step fail. -/
def scanner.error (s : scanner) (c : Char) (context : String) : scanner × Scan :=
  ({ s with step := StepFn.Error,
            err := some ("invalid character " ++ quoteChar c ++ " " ++ context) },
    Scan.scanError)

/-- Method `pushParseState`; `s` already has its new `step`. -/
def scanner.pushParseState (s : scanner) (c : Char) (newParseState : ParseState)
    (successState : Scan) :
    scanner × Scan :=
  let s1 := { s with parseState := newParseState :: s.parseState }
  if s1.parseState.length ≤ maxNestingDepth then (s1, successState)
  else s1.error c "exceeded max depth"

/-- Method `popParseState`. -/
def scanner.popParseState (s : scanner) : scanner :=
  let rest := s.parseState.tail
  if rest.length = 0 then { s with parseState := rest, step := StepFn.EndTop, endTop := true }
  else { s with parseState := rest, step := StepFn.EndValue }

/-- Function `isSpace`. -/
def isSpace (c : Char) : Bool :=
  c = ' ' || c = '\t' || c = '\r' || c = '\n'

/-- A decimal digit. -/
def isDigit (c : Char) : Bool := '0'.toNat ≤ c.toNat && c.toNat ≤ '9'.toNat

/-- A hexadecimal digit. -/
def isHex (c : Char) : Bool :=
  isDigit c || ('a'.toNat ≤ c.toNat && c.toNat ≤ 'f'.toNat) ||
    ('A'.toNat ≤ c.toNat && c.toNat ≤ 'F'.toNat)

/-- State `stateEndTop`: after the top-level value only space may follow. -/
def stateEndTop (s : scanner) (c : Char) : scanner × Scan :=
  if !isSpace c then ((s.error c "after top-level value").1, Scan.scanEnd)
  else (s, Scan.scanEnd)

/-- State `stateEndValue`: after a value, a key or an element. -/
def stateEndValue (s : scanner) (c : Char) : scanner × Scan :=
  match s.parseState with
  | [] => stateEndTop { s with step := StepFn.EndTop, endTop := true } c
  | ps :: rest =>
    if isSpace c then ({ s with step := StepFn.EndValue }, Scan.scanSkipSpace)
    else
      match ps with
      | ParseState.parseObjectKey =>
        if c = ':' then
          ({ s with parseState := ParseState.parseObjectValue :: rest, step := StepFn.BeginValue },
            Scan.scanObjectKey)
        else s.error c "after object key"
      | ParseState.parseObjectValue =>
        if c = ',' then
          ({ s with parseState := ParseState.parseObjectKey :: rest, step := StepFn.BeginString },
            Scan.scanObjectValue)
        else if c = '\x7d' then (s.popParseState, Scan.scanEndObject)
        else s.error c "after object key:value pair"
      | ParseState.parseArrayValue =>
        if c = ',' then ({ s with step := StepFn.BeginValue }, Scan.scanArrayValue)
        else if c = ']' then (s.popParseState, Scan.scanEndArray)
        else s.error c "after array element"

/-- State `stateBeginValue`: at the beginning of a value. -/
def stateBeginValue (s : scanner) (c : Char) : scanner × Scan :=
  if isSpace c then (s, Scan.scanSkipSpace)
  else if c = '\x7b' then
    scanner.pushParseState { s with step := StepFn.BeginStringOrEmpty } c
      ParseState.parseObjectKey Scan.scanBeginObject
  else if c = '[' then
    scanner.pushParseState { s with step := StepFn.BeginValueOrEmpty } c
      ParseState.parseArrayValue Scan.scanBeginArray
  else if c = '"' then ({ s with step := StepFn.InString }, Scan.scanBeginLiteral)
  else if c = '-' then ({ s with step := StepFn.Neg }, Scan.scanBeginLiteral)
  else if c = '0' then ({ s with step := StepFn.S0 }, Scan.scanBeginLiteral)
  else if c = 't' then ({ s with step := StepFn.T }, Scan.scanBeginLiteral)
  else if c = 'f' then ({ s with step := StepFn.F }, Scan.scanBeginLiteral)
  else if c = 'n' then ({ s with step := StepFn.N }, Scan.scanBeginLiteral)
  else if '1'.toNat ≤ c.toNat ∧ c.toNat ≤ '9'.toNat then
    ({ s with step := StepFn.S1 }, Scan.scanBeginLiteral)
  else s.error c "looking for beginning of value"

/-- State `stateBeginValueOrEmpty`: after the bracket that opens an array. -/
def stateBeginValueOrEmpty (s : scanner) (c : Char) : scanner × Scan :=
  if isSpace c then (s, Scan.scanSkipSpace)
  else if c = ']' then stateEndValue s c
  else stateBeginValue s c

/-- State `stateBeginString`: at the beginning of an object key. -/
def stateBeginString (s : scanner) (c : Char) : scanner × Scan :=
  if isSpace c then (s, Scan.scanSkipSpace)
  else if c = '"' then ({ s with step := StepFn.InString }, Scan.scanBeginLiteral)
  else s.error c "looking for beginning of object key string"

/-- State `stateBeginStringOrEmpty`: after the brace that opens an object. -/
def stateBeginStringOrEmpty (s : scanner) (c : Char) : scanner × Scan :=
  if isSpace c then (s, Scan.scanSkipSpace)
  else if c = '\x7d' then
    stateEndValue { s with parseState := ParseState.parseObjectValue :: s.parseState.tail } c
  else stateBeginString s c

/-- State `stateInString`. -/
def stateInString (s : scanner) (c : Char) : scanner × Scan :=
  if c = '"' then ({ s with step := StepFn.EndValue }, Scan.scanContinue)
  else if c = '\\' then ({ s with step := StepFn.InStringEsc }, Scan.scanContinue)
  else if c.toNat < 0x20 then s.error c "in string literal"
  else (s, Scan.scanContinue)

/-- State `stateInStringEsc`: after a backslash in a string. -/
def stateInStringEsc (s : scanner) (c : Char) : scanner × Scan :=
  if c = 'b' ∨ c = 'f' ∨ c = 'n' ∨ c = 'r' ∨ c = 't' ∨ c = '\\' ∨ c = '/' ∨ c = '"' then
    ({ s with step := StepFn.InString }, Scan.scanContinue)
  else if c = 'u' then ({ s with step := StepFn.InStringEscU }, Scan.scanContinue)
  else s.error c "in string escape code"

/-- States `stateInStringEscU` .. `stateInStringEscU123`: a hexadecimal digit is
read and `next` is the state after it. -/
def stateHex (next : StepFn) (s : scanner) (c : Char) : scanner × Scan :=
  if isHex c then ({ s with step := next }, Scan.scanContinue)
  else s.error c "in \\u hexadecimal character escape"

/-- State `state0`: after a leading zero, or from `state1` at a non-digit. -/
def state0 (s : scanner) (c : Char) : scanner × Scan :=
  if c = '.' then ({ s with step := StepFn.Dot }, Scan.scanContinue)
  else if c = 'e' ∨ c = 'E' then ({ s with step := StepFn.E }, Scan.scanContinue)
  else stateEndValue s c

/-- State `state1`: in the integer part of a number. -/
def state1 (s : scanner) (c : Char) : scanner × Scan :=
  if isDigit c then ({ s with step := StepFn.S1 }, Scan.scanContinue)
  else state0 s c

/-- State `stateNeg`: after the minus sign of a number. -/
def stateNeg (s : scanner) (c : Char) : scanner × Scan :=
  if c = '0' then ({ s with step := StepFn.S0 }, Scan.scanContinue)
  else if '1'.toNat ≤ c.toNat ∧ c.toNat ≤ '9'.toNat then
    ({ s with step := StepFn.S1 }, Scan.scanContinue)
  else s.error c "in numeric literal"

/-- State `stateDot`: after the decimal point. -/
def stateDot (s : scanner) (c : Char) : scanner × Scan :=
  if isDigit c then ({ s with step := StepFn.Dot0 }, Scan.scanContinue)
  else s.error c "after decimal point in numeric literal"

/-- State `stateDot0`: in the fraction of a number. -/
def stateDot0 (s : scanner) (c : Char) : scanner × Scan :=
  if isDigit c then (s, Scan.scanContinue)
  else if c = 'e' ∨ c = 'E' then ({ s with step := StepFn.E }, Scan.scanContinue)
  else stateEndValue s c

/-- State `stateESign`: after the sign of an exponent. -/
def stateESign (s : scanner) (c : Char) : scanner × Scan :=
  if isDigit c then ({ s with step := StepFn.E0 }, Scan.scanContinue)
  else s.error c "in exponent of numeric literal"

/-- State `stateE`: after the letter that starts an exponent. -/
def stateE (s : scanner) (c : Char) : scanner × Scan :=
  if c = '+' ∨ c = '-' then ({ s with step := StepFn.ESign }, Scan.scanContinue)
  else stateESign s c

/-- State `stateE0`: in the digits of an exponent. -/
def stateE0 (s : scanner) (c : Char) : scanner × Scan :=
  if isDigit c then (s, Scan.scanContinue)
  else stateEndValue s c

/-- States `stateT` .. `stateNul`: inside `true`, `false` or `null`, the letter
`want` is read and `next` is the state after it. -/
def stateLit (want : Char) (next : StepFn) (context : String) (s : scanner) (c : Char) :
    scanner × Scan :=
  if c = want then ({ s with step := next }, Scan.scanContinue)
  else s.error c context

/-- The call `s.step(s, c)`. -/
def scanner.doStep (s : scanner) (c : Char) : scanner × Scan :=
  match s.step with
  | StepFn.BeginValueOrEmpty => stateBeginValueOrEmpty s c
  | StepFn.BeginValue => stateBeginValue s c
  | StepFn.BeginStringOrEmpty => stateBeginStringOrEmpty s c
  | StepFn.BeginString => stateBeginString s c
  | StepFn.EndValue => stateEndValue s c
  | StepFn.EndTop => stateEndTop s c
  | StepFn.InString => stateInString s c
  | StepFn.InStringEsc => stateInStringEsc s c
  | StepFn.InStringEscU => stateHex StepFn.InStringEscU1 s c
  | StepFn.InStringEscU1 => stateHex StepFn.InStringEscU12 s c
  | StepFn.InStringEscU12 => stateHex StepFn.InStringEscU123 s c
  | StepFn.InStringEscU123 => stateHex StepFn.InString s c
  | StepFn.Neg => stateNeg s c
  | StepFn.S1 => state1 s c
  | StepFn.S0 => state0 s c
  | StepFn.Dot => stateDot s c
  | StepFn.Dot0 => stateDot0 s c
  | StepFn.E => stateE s c
  | StepFn.ESign => stateESign s c
  | StepFn.E0 => stateE0 s c
  | StepFn.T => stateLit 'r' StepFn.Tr "in literal true (expecting r)" s c
  | StepFn.Tr => stateLit 'u' StepFn.Tru "in literal true (expecting u)" s c
  | StepFn.Tru => stateLit 'e' StepFn.EndValue "in literal true (expecting e)" s c
  | StepFn.F => stateLit 'a' StepFn.Fa "in literal false (expecting a)" s c
  | StepFn.Fa => stateLit 'l' StepFn.Fal "in literal false (expecting l)" s c
  | StepFn.Fal => stateLit 's' StepFn.Fals "in literal false (expecting s)" s c
  | StepFn.Fals => stateLit 'e' StepFn.EndValue "in literal false (expecting e)" s c
  | StepFn.N => stateLit 'u' StepFn.Nu "in literal null (expecting u)" s c
  | StepFn.Nu => stateLit 'l' StepFn.Nul "in literal null (expecting l)" s c
  | StepFn.Nul => stateLit 'l' StepFn.EndValue "in literal null (expecting l)" s c
  | StepFn.Error => (s, Scan.scanError)

/-- Method `eof`: the scanner is told that the text has ended. -/
def scanner.eof (s : scanner) : scanner × Scan :=
  if s.err.isSome then (s, Scan.scanError)
  else if s.endTop then (s, Scan.scanEnd)
  else
    let s1 := (s.doStep ' ').1
    if s1.endTop then (s1, Scan.scanEnd)
    else if s1.err.isNone then
      ({ s1 with err := some "unexpected end of JSON input" }, Scan.scanError)
    else (s1, Scan.scanError)

/-- The loop of `compact`: `dst` collects the bytes that are kept.  A byte is
dropped when the scanner answers `scanSkipSpace` or `scanEnd`, and the loop is
left at `scanError`. -/
def compactLoop (scan : scanner) (dst : List Char) : List Char → scanner × List Char
  | [] => (scan, dst)
  | c :: cs =>
    match scan.doStep c with
    | (scan1, Scan.scanError) => (scan1, dst)
    | (scan1, Scan.scanSkipSpace) => compactLoop scan1 dst cs
    | (scan1, Scan.scanEnd) => compactLoop scan1 dst cs
    | (scan1, _) => compactLoop scan1 (dst ++ [c]) cs

/-- Function `json.Compact`: the compact text, or the scanner's error. -/
def Compact (src : String) : Except String String :=
  match compactLoop scanner.reset [] src.data with
  | (scan, dst) =>
    match scan.eof with
    | (scan1, Scan.scanError) => Except.error (scan1.err.getD "")
    | _ => Except.ok ⟨dst⟩

/-- What a function or a method with a value receiver does: it returns a value
or it panics. -/
inductive Result (α : Type) where
  | ok (val : α)
  | panic (msg : String)
  deriving DecidableEq, Repr

/-- Method `Bytes`: the buffer as it is goes to `json.Compact`, and an error
becomes a panic. -/
def Builder.Bytes (self : Builder) : Result String :=
  match Compact self.buffer with
  | Except.error err => Result.panic err
  | Except.ok buffer => Result.ok buffer

/-! ## tree.go -/

/-- What an `interface{}` filled by `json.Unmarshal` holds: nil, a bool, a
float64, a string, a `[]interface{}` or a `map[string]interface{}`.  A number
parsed from JSON is a finite float64, which is a rational number.  A map is the
list of its entries, looked up from the front. -/
inductive Value where
  | null
  | bool (b : Bool)
  | number (x : ℚ)
  | string (s : String)
  | array (elems : List Value)
  | object (fields : List (String × Value))

/-- The struct `Tree`: `Data` is a pointer, `none` when it is nil. -/
structure Tree where
  Data : Option Value

/-- Method `IsString`. -/
def Tree.IsString (self : Tree) : Bool :=
  match self.Data with
  | some (Value.string _) => true
  | _ => false

/-- Method `IsNumber`. -/
def Tree.IsNumber (self : Tree) : Bool :=
  match self.Data with
  | some (Value.number _) => true
  | _ => false

/-- Method `IsObject`. -/
def Tree.IsObject (self : Tree) : Bool :=
  match self.Data with
  | some (Value.object _) => true
  | _ => false

/-- Method `IsArray`. -/
def Tree.IsArray (self : Tree) : Bool :=
  match self.Data with
  | some (Value.array _) => true
  | _ => false

/-- Method `IsBool`. -/
def Tree.IsBool (self : Tree) : Bool :=
  match self.Data with
  | some (Value.bool _) => true
  | _ => false

/-- Method `IsNull`. -/
def Tree.IsNull (self : Tree) : Bool :=
  match self.Data with
  | none => false
  | some Value.null => true
  | some _ => false

/-- Method `IsValid`. -/
def Tree.IsValid (self : Tree) : Bool :=
  match self.Data with
  | none => false
  | some _ => true

/-- The rest of `strings.Split` on a one-character separator: `cur` is the
piece being read, in reverse. -/
def splitLoop (sep : Char) (cur : List Char) : List Char → List String
  | [] => [⟨cur.reverse⟩]
  | c :: cs =>
    if c = sep then ⟨cur.reverse⟩ :: splitLoop sep [] cs
    else splitLoop sep (c :: cur) cs

/-- Function `strings.Split(s, sep)` of the standard library for a separator of
one character: the pieces of `s` between the separators, one more than there are
separators. -/
def Split (s : String) (sep : Char) : List String := splitLoop sep [] s.data

/-- The loop of `strconv.ParseUint(s, 10, 32)`: `n` is the value read so far.
It fails at a character that is no decimal digit, and as soon as the value
exceeds `1<<32 - 1`. -/
def parseUintLoop (n : Nat) : List Char → Option Nat
  | [] => some n
  | c :: cs =>
    if '0'.toNat ≤ c.toNat ∧ c.toNat ≤ '9'.toNat then
      let n1 := n * 10 + (c.toNat - '0'.toNat)
      if n1 > 2 ^ 32 - 1 then none else parseUintLoop n1 cs
    else none

/-- Function `strconv.ParseUint(s, 10, 32)` of the standard library: `none`
when it returns an error. -/
def ParseUint (s : String) : Option Nat :=
  if s.data = [] then none else parseUintLoop 0 s.data

/-- The loop of `Select` over the segments; `result` is the current node. -/
def selectLoop (result : Tree) : List String → Result Tree
  | [] => Result.ok result
  | s :: rest =>
    match result.Data with
    | none => Result.panic "invalid memory address or nil pointer dereference"
    | some (Value.object data) =>
      match data.lookup s with
      | some value => selectLoop ⟨some value⟩ rest
      | none => selectLoop result rest
    | some (Value.array data) =>
      match ParseUint s with
      | none => Result.ok ⟨none⟩
      | some arrayIndex =>
        if h : arrayIndex < data.length then selectLoop ⟨some (data.get ⟨arrayIndex, h⟩)⟩ rest
        else Result.panic "index out of range"
    | some _ => Result.ok ⟨none⟩

/-- Method `Select`. -/
def Tree.Select (self : Tree) (selector : String) : Result Tree :=
  match self.Data with
  | none => Result.ok self
  | some Value.null => Result.ok self
  | some _ => selectLoop self (Split selector '.')

/-- Method `Has`. -/
def Tree.Has (self : Tree) (selector : String) : Result Bool :=
  match self.Select selector with
  | Result.ok t => Result.ok t.IsValid
  | Result.panic msg => Result.panic msg

/-- The tree `json.Unmarshal` builds from the text `{"a":{"b":[1,2,3]}}`. -/
def sample : Tree :=
  ⟨some (Value.object [("a", Value.object [("b",
    Value.array [Value.number 1, Value.number 2, Value.number 3])])])⟩

/-- Follows the claim's words, not the source: `Resolves P v segs w` says that the
segments `segs` resolve in turn from `v` and that `w` is the value reached.  A
segment met at an Object is an existing field name and leads to that field's
value; a segment met at an Array is the decimal numeral of an index `i` smaller
than the array length, with `P i`, and leads to element `i`. -/
inductive Resolves (P : Nat → Prop) : Value → List String → Value → Prop where
  | done (v : Value) : Resolves P v [] v
  | field (fields : List (String × Value)) (s : String) (v : Value) (rest : List String)
      (w : Value) : fields.lookup s = some v → Resolves P v rest w →
      Resolves P (Value.object fields) (s :: rest) w
  | index (elems : List Value) (i : Nat) (rest : List String) (w : Value)
      (h : i < elems.length) : P i → Resolves P (elems.get ⟨i, h⟩) rest w →
      Resolves P (Value.array elems) (Nat.repr i :: rest) w

/-! ## tree.go: the typed getters -/

/-- The call panicked. -/
def Result.isPanic {α : Type} (r : Result α) : Bool :=
  match r with
  | Result.ok _ => false
  | Result.panic _ => true

/-- The name the runtime prints for the dynamic type of a value. -/
def Value.typeName : Value → String
  | Value.null => "nil"
  | Value.bool _ => "bool"
  | Value.number _ => "float64"
  | Value.string _ => "string"
  | Value.array _ => "[]interface \x7b\x7d"
  | Value.object _ => "map[string]interface \x7b\x7d"

/-- The message of the `*runtime.TypeAssertionError` a failed type assertion
`(*self.Data).(want)` panics with. -/
def typeAssertionError (v : Value) (want : String) : String :=
  "interface conversion: interface \x7b\x7d is " ++ v.typeName ++ ", not " ++ want

/-- The conversion `int(x)` of a float64 `x`, with `int` of 64 bits: the
fraction is discarded, `Int.tdiv` being the quotient rounded toward zero.  When
the integer does not fit, the language leaves the result to the implementation;
it is the smallest `int` here, as on amd64. -/
def floatToInt (x : ℚ) : Int :=
  let n := Int.tdiv x.num x.den
  if -2 ^ 63 ≤ n ∧ n < 2 ^ 63 then n else -2 ^ 63

/-- Method `GetString`; `defaultValue` is the variadic parameter. -/
def Tree.GetString (self : Tree) (defaultValue : List String) : Result String :=
  match self.Data with
  | none => Result.ok (match defaultValue with | d :: _ => d | [] => "")
  | some Value.null => Result.ok (match defaultValue with | d :: _ => d | [] => "")
  | some (Value.string s) => Result.ok s
  | some v => Result.panic (typeAssertionError v "string")

/-- Method `GetInt`. -/
def Tree.GetInt (self : Tree) (defaultValue : List Int) : Result Int :=
  match self.Data with
  | none => Result.ok (match defaultValue with | d :: _ => d | [] => 0)
  | some Value.null => Result.ok (match defaultValue with | d :: _ => d | [] => 0)
  | some (Value.number x) => Result.ok (floatToInt x)
  | some v => Result.panic (typeAssertionError v "float64")

/-- Method `GetFloat`. -/
def Tree.GetFloat (self : Tree) (defaultValue : List ℚ) : Result ℚ :=
  match self.Data with
  | none => Result.ok (match defaultValue with | d :: _ => d | [] => 0)
  | some Value.null => Result.ok (match defaultValue with | d :: _ => d | [] => 0)
  | some (Value.number x) => Result.ok x
  | some v => Result.panic (typeAssertionError v "float64")

/-- Method `GetBool`. -/
def Tree.GetBool (self : Tree) (defaultValue : List Bool) : Result Bool :=
  match self.Data with
  | none => Result.ok (match defaultValue with | d :: _ => d | [] => false)
  | some Value.null => Result.ok (match defaultValue with | d :: _ => d | [] => false)
  | some (Value.bool b) => Result.ok b
  | some v => Result.panic (typeAssertionError v "bool")

/-- The number a text of decimal digits denotes, read from the left. -/
def digitsValue (cs : List Char) : Nat :=
  cs.foldl (fun acc c => acc * 10 + (c.toNat - '0'.toNat)) 0

/-- Follows the claim's words, not the source: `cs` is the canonical base-10
numeral of `n`.  It is not empty, holds decimal digits only (no sign, no
decimal point, no exponent), has no leading zero unless it is the one digit
`0`, and denotes `n`. -/
def IsCanonicalNumeral (cs : List Char) (n : Nat) : Prop :=
  cs ≠ [] ∧ (∀ c ∈ cs, isDigit c = true) ∧ (cs.head? = some '0' → cs = ['0']) ∧
    digitsValue cs = n

/-! ## strconv.FormatFloat

`Value` formats a float with `strconv.FormatFloat(x, 'f', -1, 64)`.  By the
documentation of the standard library, precision -1 uses the smallest number of
digits necessary to represent the value uniquely, that is, such that
`ParseFloat` returns `x` again, and format `f` writes these digits as
`-ddd.dddd` without an exponent.  A decimal is parsed to `x` when it lies
between the two midpoints of `x` and its neighbours, the midpoints included when
the mantissa of `x` is even.  The decimal with the fewest digits in that
interval is the multiple of the largest power of ten that has a multiple there,
and of several such multiples the one closest to `x` is written. -/

/-- The sign bit: `bits>>63 != 0`. -/
def Float64.neg (bits : Float64) : Bool := decide (bits / 2 ^ 63 % 2 ≠ 0)

/-- The exponent field: `int(bits>>52) & (1<<11 - 1)`. -/
def Float64.expBits (bits : Float64) : Nat := bits / 2 ^ 52 % 2 ^ 11

/-- The mantissa field: `bits & (1<<52 - 1)`. -/
def Float64.mantBits (bits : Float64) : Nat := bits % 2 ^ 52

/-- The mantissa with its implicit top bit, which a denormalized number lacks. -/
def Float64.mant (bits : Float64) : Nat :=
  if bits.expBits = 0 then bits.mantBits else bits.mantBits + 2 ^ 52

/-- The binary exponent: the magnitude of a finite float64 is
`mant * 2 ^ (exp - 52)`. -/
def Float64.exp (bits : Float64) : Int :=
  (if bits.expBits = 0 then 1 else (bits.expBits : Int)) - 1023

/-- The magnitude of a finite float64, as a rational number. -/
def Float64.magnitude (bits : Float64) : ℚ := (bits.mant : ℚ) * (2 : ℚ) ^ (bits.exp - 52)

/-- The step of the grid of the multiples of `10 ^ k`, in the unit in which a
number `a * 2 ^ t` is the integer `a * gridScale t k`. -/
def gridStep (t k : Int) : Nat := 10 ^ k.toNat * 2 ^ (-t).toNat

/-- The factor that takes `a`, standing for `a * 2 ^ t`, to the unit of
`gridStep t k`. -/
def gridScale (t k : Int) : Nat := 2 ^ t.toNat * 10 ^ (-k).toNat

/-- The multiple `m * G` of the step `G` closest to `X` among those from `L` to
`H` (the ends included iff `inclusive`), if there is one; halfway between two
multiples, the even one. -/
def closestIn (L X H G : Nat) (inclusive : Bool) : Option Nat :=
  let mMin := if inclusive then (L + G - 1) / G else L / G + 1
  let mMax := if inclusive then H / G else (H - 1) / G
  if mMin ≤ mMax then
    let q := X / G
    let r := X % G
    let mC := if 2 * r < G then q else if G < 2 * r then q + 1 else if q % 2 = 0 then q else q + 1
    some (max mMin (min mMax mC))
  else none

/-- The multiple `m * 10 ^ k` closest to `xN * 2 ^ t` in the interval from
`loN * 2 ^ t` to `hiN * 2 ^ t` (its ends included iff `inclusive`), if the
interval holds a multiple of `10 ^ k`. -/
def closestMultiple (loN xN hiN : Nat) (inclusive : Bool) (t k : Int) : Option Nat :=
  closestIn (loN * gridScale t k) (xN * gridScale t k) (hiN * gridScale t k) (gridStep t k)
    inclusive

/-- The shortest decimal `m * 10 ^ k` that identifies the float: the search
goes down from `k` to the first power of ten with a multiple in the
interval. -/
def shortestLoop (loN xN hiN : Nat) (inclusive : Bool) (t : Int) : Nat → Int → Nat × Int
  | 0, _ => (0, 0)
  | fuel + 1, k =>
    match closestMultiple loN xN hiN inclusive t k with
    | some m => (m, k)
    | none => shortestLoop loN xN hiN inclusive t fuel (k - 1)

/-- The digits of `n`, with zeros in front up to `width` digits. -/
def padDigits (width n : Nat) : String :=
  ⟨List.replicate (width - (Nat.repr n).length) '0'⟩ ++ Nat.repr n

/-- Format `f` of the decimal `m * 10 ^ k`: the integer part, and after a
decimal point the `-k` digits of the fraction when `k` is negative. -/
def fmtF (m : Nat) (k : Int) : String :=
  if 0 ≤ k then Nat.repr (m * 10 ^ k.toNat)
  else Nat.repr (m / 10 ^ (-k).toNat) ++ "." ++ padDigits (-k).toNat (m % 10 ^ (-k).toNat)

/-- Modelled from the documentation of the standard library:
`strconv.FormatFloat(x, 'f', -1, 64)`.  The interval of the decimals that parse
to `x` is taken in the unit `2 ^ (exp - 54)`: `x` is `4 * mant`, the upper
midpoint `4 * mant + 2`, and the lower midpoint `4 * mant - 2`, or
`4 * mant - 1` when `x` is a power of two above the smallest exponent, whose
lower neighbour is half as far. -/
def FormatFloat (bits : Float64) : String :=
  if bits.expBits = 2 ^ 11 - 1 then
    if bits.mantBits ≠ 0 then "NaN" else if bits.neg then "-Inf" else "+Inf"
  else
    let sign := if bits.neg then "-" else ""
    if bits.mant = 0 then sign ++ "0"
    else
      let t : Int := bits.exp - 54
      let xN := 4 * bits.mant
      let hiN := 4 * bits.mant + 2
      let loN := if bits.mantBits = 0 ∧ 1 < bits.expBits then 4 * bits.mant - 1
        else 4 * bits.mant - 2
      let k0 : Nat := (Nat.toDigits 10 (hiN * 2 ^ t.toNat)).length
      match shortestLoop loN xN hiN (bits.mant % 2 = 0) t (k0 + (-t).toNat + 1) k0 with
      | (m, k) => sign ++ fmtF m k

/-! ## Lemmas -/

theorem splitLoop_ne_nil (sep : Char) (cur cs : List Char) : splitLoop sep cur cs ≠ [] := by
  induction cs generalizing cur with
  | nil => simp [splitLoop]
  | cons c cs ih =>
    unfold splitLoop
    split
    · simp
    · exact ih _

theorem Split_ne_nil (s : String) (sep : Char) : Split s sep ≠ [] :=
  splitLoop_ne_nil sep [] s.data

theorem digitChar_toNat (k : Nat) (hk : k < 10) :
    '0'.toNat ≤ (Nat.digitChar k).toNat ∧ (Nat.digitChar k).toNat ≤ '9'.toNat ∧
      (Nat.digitChar k).toNat - '0'.toNat = k := by
  interval_cases k <;> decide

theorem parseUintLoop_digit (acc k : Nat) (hk : k < 10) (tail : List Char)
    (hb : acc * 10 + k ≤ 2 ^ 32 - 1) :
    parseUintLoop acc (Nat.digitChar k :: tail) = parseUintLoop (acc * 10 + k) tail := by
  obtain ⟨h1, h2, h3⟩ := digitChar_toNat k hk
  rw [parseUintLoop]
  simp only [h1, h2, h3, and_self, if_true]
  rw [if_neg (by omega)]

theorem parseUintLoop_toDigitsCore (fuel : Nat) :
    ∀ (n : Nat) (ds : List Char), n < fuel →
      ∃ xs : List Char, Nat.toDigitsCore 10 fuel n ds = xs ++ ds ∧ xs ≠ [] ∧
        ∀ (acc : Nat) (tail : List Char), acc * 10 ^ xs.length + n ≤ 2 ^ 32 - 1 →
          parseUintLoop acc (xs ++ tail) = parseUintLoop (acc * 10 ^ xs.length + n) tail := by
  induction fuel with
  | zero => intro n ds h; omega
  | succ fuel ih =>
    intro n ds hn
    unfold Nat.toDigitsCore
    by_cases h0 : n / 10 = 0
    · refine ⟨[Nat.digitChar (n % 10)], by simp [h0], by simp, ?_⟩
      intro acc tail hb
      have hlt : n < 10 := by omega
      have hmod : n % 10 = n := Nat.mod_eq_of_lt hlt
      simp only [List.length_singleton, pow_one, List.singleton_append] at hb ⊢
      rw [hmod]
      exact parseUintLoop_digit acc n hlt tail hb
    · obtain ⟨xs, hxs, _, hparse⟩ := ih (n / 10) (Nat.digitChar (n % 10) :: ds) (by omega)
      refine ⟨xs ++ [Nat.digitChar (n % 10)], by simp [h0, hxs], by simp, ?_⟩
      intro acc tail hb
      have hlen : (xs ++ [Nat.digitChar (n % 10)]).length = xs.length + 1 := by simp
      have he : acc * (10 ^ xs.length * 10) = acc * 10 ^ xs.length * 10 := by ring
      rw [hlen, pow_succ, he] at hb
      have hdm := Nat.div_add_mod n 10
      have hb1 : acc * 10 ^ xs.length + n / 10 ≤ 2 ^ 32 - 1 := by omega
      have hb2 : (acc * 10 ^ xs.length + n / 10) * 10 + n % 10
          = acc * 10 ^ xs.length * 10 + n := by omega
      rw [List.append_assoc, List.singleton_append, hparse acc _ hb1,
        parseUintLoop_digit _ _ (Nat.mod_lt n (by decide)) tail (by omega), hb2, hlen, pow_succ,
        he]

theorem ParseUint_repr (i : Nat) (hi : i < 2 ^ 32) : ParseUint (Nat.repr i) = some i := by
  obtain ⟨xs, hxs, hne, hparse⟩ := parseUintLoop_toDigitsCore (i + 1) i [] (by omega)
  have hdata : (Nat.repr i).data = xs := by
    simp [Nat.repr, Nat.toDigits, List.asString, hxs]
  have h := hparse 0 [] (by omega)
  simp only [List.append_nil, zero_mul, zero_add] at h
  unfold ParseUint
  rw [hdata, if_neg hne, h]
  rfl

theorem selectLoop_of_Resolves (v w : Value) (segs : List String)
    (h : Resolves (fun i => i < 2 ^ 32) v segs w) :
    selectLoop ⟨some v⟩ segs = Result.ok ⟨some w⟩ := by
  induction h with
  | done v => rfl
  | field fields s v rest w hl _ ih =>
    rw [selectLoop]
    simp only [hl]
    exact ih
  | index elems i rest w hlen hi _ ih =>
    rw [selectLoop]
    simp only [ParseUint_repr i hi, hlen, dite_true]
    exact ih

theorem Resolves_replicate_null (n i : Nat) (h : i < n) :
    Resolves (fun _ => True) (Value.array (List.replicate n Value.null)) [Nat.repr i]
      Value.null := by
  have hlen : i < (List.replicate n Value.null).length := by simpa using h
  have hget : (List.replicate n Value.null).get ⟨i, hlen⟩ = Value.null := by simp
  refine Resolves.index _ i [] Value.null hlen trivial ?_
  rw [hget]
  exact Resolves.done _

theorem Select_array (elems : List Value) (selector : String) :
    (Tree.mk (some (Value.array elems))).Select selector
      = selectLoop ⟨some (Value.array elems)⟩ (Split selector '.') := rfl

theorem selectLoop_array_unparsed (elems : List Value) (s : String) (rest : List String)
    (h : ParseUint s = none) :
    selectLoop ⟨some (Value.array elems)⟩ (s :: rest) = Result.ok ⟨none⟩ := by
  rw [selectLoop]
  simp only [h]

theorem tdiv_num_den (x : ℚ) :
    (0 ≤ x → Int.tdiv x.num x.den = ⌊x⌋) ∧ (x < 0 → Int.tdiv x.num x.den = ⌈x⌉) := by
  constructor
  · intro hx
    rw [Int.tdiv_eq_ediv (Rat.num_nonneg.mpr hx) (Int.ofNat_nonneg _), Rat.floor_def]
  · intro hx
    have hneg : 0 ≤ (-x).num := Rat.num_nonneg.mpr (by linarith)
    have h1 : Int.tdiv (-x).num (-x).den = ⌊-x⌋ := by
      rw [Int.tdiv_eq_ediv hneg (Int.ofNat_nonneg _), Rat.floor_def]
    rw [Rat.num_neg_eq_neg_num, Rat.den_neg_eq_den, Int.neg_tdiv, Int.floor_neg] at h1
    exact neg_injective h1

theorem tdiv_num_den_spec (x : ℚ) :
    |((Int.tdiv x.num x.den : Int) : ℚ)| ≤ |x| ∧ |x| < |((Int.tdiv x.num x.den : Int) : ℚ)| + 1 ∧
      (0 ≤ x → 0 ≤ Int.tdiv x.num x.den) ∧ (x ≤ 0 → Int.tdiv x.num x.den ≤ 0) := by
  rcases le_or_lt 0 x with hx | hx
  · rw [(tdiv_num_den x).1 hx]
    have h0 : (0 : Int) ≤ ⌊x⌋ := Int.floor_nonneg.mpr hx
    have h0q : (0 : ℚ) ≤ (⌊x⌋ : ℚ) := by exact_mod_cast h0
    rw [abs_of_nonneg h0q, abs_of_nonneg hx]
    refine ⟨Int.floor_le x, Int.lt_floor_add_one x, fun _ => h0, fun hx0 => ?_⟩
    have : x = 0 := le_antisymm hx0 hx
    simp [this]
  · rw [(tdiv_num_den x).2 hx]
    have h0 : ⌈x⌉ ≤ (0 : Int) := Int.ceil_le.mpr (by simpa using hx.le)
    have h0q : (⌈x⌉ : ℚ) ≤ 0 := by exact_mod_cast h0
    rw [abs_of_nonpos h0q, abs_of_neg hx]
    have h1 := Int.le_ceil x
    have h2 := Int.ceil_lt_add_one x
    refine ⟨by linarith, by linarith, fun hx0 => absurd hx (not_lt.mpr hx0), fun _ => h0⟩

theorem trunc_unique (x : ℚ) (m n : Int)
    (hm : |(m : ℚ)| ≤ |x| ∧ |x| < |(m : ℚ)| + 1 ∧ (0 ≤ x → 0 ≤ m) ∧ (x ≤ 0 → m ≤ 0))
    (hn : |(n : ℚ)| ≤ |x| ∧ |x| < |(n : ℚ)| + 1 ∧ (0 ≤ x → 0 ≤ n) ∧ (x ≤ 0 → n ≤ 0)) :
    m = n := by
  obtain ⟨m1, m2, m3, m4⟩ := hm
  obtain ⟨n1, n2, n3, n4⟩ := hn
  rcases le_or_lt 0 x with hx | hx
  · have hm0 : (0 : ℚ) ≤ m := by exact_mod_cast m3 hx
    have hn0 : (0 : ℚ) ≤ n := by exact_mod_cast n3 hx
    rw [abs_of_nonneg hm0, abs_of_nonneg hx] at m1 m2
    rw [abs_of_nonneg hn0, abs_of_nonneg hx] at n1 n2
    have h1 : (m : ℚ) < n + 1 := by linarith
    have h2 : (n : ℚ) < m + 1 := by linarith
    have h1' : m < n + 1 := by exact_mod_cast h1
    have h2' : n < m + 1 := by exact_mod_cast h2
    omega
  · have hm0 : (m : ℚ) ≤ 0 := by exact_mod_cast m4 hx.le
    have hn0 : (n : ℚ) ≤ 0 := by exact_mod_cast n4 hx.le
    rw [abs_of_nonpos hm0, abs_of_neg hx] at m1 m2
    rw [abs_of_nonpos hn0, abs_of_neg hx] at n1 n2
    have h1 : (m : ℚ) < n + 1 := by linarith
    have h2 : (n : ℚ) < m + 1 := by linarith
    have h1' : m < n + 1 := by exact_mod_cast h1
    have h2' : n < m + 1 := by exact_mod_cast h2
    omega

theorem floatToInt_in_range (x : ℚ) (hlo : -(2 : ℚ) ^ 63 - 1 < x) (hhi : x < (2 : ℚ) ^ 63) :
    floatToInt x = Int.tdiv x.num x.den := by
  obtain ⟨h1, h2, h3, h4⟩ := tdiv_num_den_spec x
  have hrange : -2 ^ 63 ≤ Int.tdiv x.num x.den ∧ Int.tdiv x.num x.den < 2 ^ 63 := by
    rcases le_or_lt 0 x with hx | hx
    · have hn := h3 hx
      have hnq : (0 : ℚ) ≤ (Int.tdiv x.num x.den : Int) := by exact_mod_cast hn
      rw [abs_of_nonneg hnq, abs_of_nonneg hx] at h1
      have : ((Int.tdiv x.num x.den : Int) : ℚ) < ((2 ^ 63 : Int) : ℚ) := by
        push_cast; linarith
      have := Int.cast_lt.mp this
      omega
    · have hn := h4 hx.le
      have hnq : ((Int.tdiv x.num x.den : Int) : ℚ) ≤ 0 := by exact_mod_cast hn
      rw [abs_of_nonpos hnq, abs_of_neg hx] at h1
      have : ((-2 ^ 63 - 1 : Int) : ℚ) < ((Int.tdiv x.num x.den : Int) : ℚ) := by
        push_cast; linarith
      have := Int.cast_lt.mp this
      omega
  unfold floatToInt
  simp only [hrange, and_self, if_true]

theorem state_of_all_inObject (b : Builder) (h : ∀ s ∈ b.stack, s = state.inObject) :
    b.state = state.atRoot ∨ b.state = state.inObject := by
  unfold Builder.state
  cases hl : b.stack.getLast? with
  | none => exact Or.inl rfl
  | some s => exact Or.inr (h s (List.mem_of_getLast?_eq_some hl))

theorem apply_all_inObject (f : Float64 → String) (c : Call) (b : Builder)
    (h : ∀ s ∈ b.stack, s = state.inObject) :
    ∀ s ∈ (c.apply f b).self.stack, s = state.inObject := by
  cases c with
  | BeginObject =>
    simp only [Call.apply, Builder.BeginObject]
    split
    · exact h
    · intro s hs
      rcases List.mem_append.mp hs with h1 | h1
      · exact h s h1
      · simpa using h1
  | EndObject =>
    simp only [Call.apply, Builder.EndObject]
    split
    · exact h
    · intro s hs
      exact h s (List.dropLast_subset _ hs)
  | BeginArray =>
    simp only [Call.apply, Builder.BeginArray]
    split
    · exact h
    · intro s hs
      rcases List.mem_append.mp hs with h1 | h1
      · exact h s h1
      · simpa using h1
  | EndArray =>
    simp only [Call.apply, Builder.EndArray]
    split
    · exact h
    · intro s hs
      exact h s (List.dropLast_subset _ hs)
  | Name name =>
    simp only [Call.apply, Builder.Name]
    split
    · exact h
    · exact h
  | Value value =>
    cases value <;> exact h

theorem chain_all_inObject (f : Float64 → String) (calls : List Call) :
    ∀ b : Builder, (∀ s ∈ b.stack, s = state.inObject) →
      ∀ s ∈ (Builder.chain f b calls).self.stack, s = state.inObject := by
  induction calls with
  | nil => intro b h; exact h
  | cons c cs ih =>
    intro b h
    have hc := apply_all_inObject f c b h
    unfold Builder.chain
    cases hr : c.apply f b with
    | mk self1 panic =>
      rw [hr] at hc
      cases panic with
      | none => exact ih self1 hc
      | some msg => exact hc

theorem append_null_ne (s : String) : s ++ "null" ≠ s := by
  intro h
  have hl := congrArg String.length h
  rw [String.length_append] at hl
  have : "null".length = 4 := by decide
  omega

theorem splitLoop_append_sep (sep : Char) (xs ys : List Char) :
    ∀ cur : List Char,
      splitLoop sep cur (xs ++ sep :: ys) = splitLoop sep cur xs ++ splitLoop sep [] ys := by
  induction xs with
  | nil =>
    intro cur
    simp [splitLoop]
  | cons c cs ih =>
    intro cur
    by_cases hc : c = sep
    · simp [splitLoop, hc, ih]
    · simp [splitLoop, hc, ih]

theorem Split_append_sep (p q : String) :
    Split (p ++ "." ++ q) '.' = Split p '.' ++ Split q '.' := by
  unfold Split
  have hd : (p ++ "." ++ q).data = p.data ++ '.' :: q.data := by
    simp [String.data_append]
  rw [hd, splitLoop_append_sep]

theorem selectLoop_append (ps qs : List String) :
    ∀ v : Value,
      selectLoop ⟨some v⟩ (ps ++ qs) =
        match selectLoop ⟨some v⟩ ps with
        | Result.panic msg => Result.panic msg
        | Result.ok ⟨none⟩ => Result.ok ⟨none⟩
        | Result.ok ⟨some w⟩ => selectLoop ⟨some w⟩ qs := by
  induction ps with
  | nil => intro v; rfl
  | cons s rest ih =>
    intro v
    cases v with
    | object data =>
      simp only [List.cons_append, selectLoop]
      cases hl : data.lookup s with
      | none => exact ih _
      | some value => exact ih _
    | array data =>
      simp only [List.cons_append, selectLoop]
      cases hp : ParseUint s with
      | none => rfl
      | some arrayIndex =>
        by_cases hlt : arrayIndex < data.length
        · simp only [hlt, dite_true]
          exact ih _
        · simp only [hlt, dite_false]
    | null => rfl
    | bool b => rfl
    | number x => rfl
    | string x => rfl

theorem htmlEscapeChar_no_markup (c x : Char) (hx : x = '<' ∨ x = '>' ∨ x = '&') :
    x ∉ htmlEscapeChar c := by
  unfold htmlEscapeChar
  split_ifs with h1 h2 h3 h4 h5
  · rcases hx with h | h | h <;> rw [h] <;> decide
  · rcases hx with h | h | h <;> rw [h] <;> decide
  · rcases hx with h | h | h <;> rw [h] <;> decide
  · rcases hx with h | h | h <;> rw [h] <;> decide
  · rcases hx with h | h | h <;> rw [h] <;> decide
  · intro hmem
    have hxc : x = c := by simpa using hmem
    rcases hx with h | h | h
    · exact h1 (hxc ▸ h)
    · exact h2 (hxc ▸ h)
    · exact h3 (hxc ▸ h)

theorem HTMLEscape_no_markup (s : String) (x : Char) (hx : x = '<' ∨ x = '>' ∨ x = '&') :
    x ∉ (HTMLEscape s).data := by
  unfold HTMLEscape
  intro hmem
  obtain ⟨c, _, hc⟩ := List.mem_flatMap.mp hmem
  exact htmlEscapeChar_no_markup c x hx hc

theorem digitChar_isDigit (k : Nat) (hk : k < 10) :
    isDigit (Nat.digitChar k) = true ∧ (Nat.digitChar k = '0' → k = 0) := by
  interval_cases k <;> decide

theorem toDigitsCore_canonical (fuel : Nat) :
    ∀ (n : Nat) (ds : List Char), n < fuel →
      ∃ xs : List Char, Nat.toDigitsCore 10 fuel n ds = xs ++ ds ∧ xs ≠ [] ∧
        (∀ c ∈ xs, isDigit c = true) ∧ (xs.head? = some '0' → n = 0 ∧ xs = ['0']) ∧
        ∀ acc : Nat, xs.foldl (fun a c => a * 10 + (c.toNat - '0'.toNat)) acc
          = acc * 10 ^ xs.length + n := by
  induction fuel with
  | zero => intro n ds h; omega
  | succ fuel ih =>
    intro n ds hn
    unfold Nat.toDigitsCore
    have hmod : n % 10 < 10 := Nat.mod_lt n (by decide)
    obtain ⟨hd1, hd2⟩ := digitChar_isDigit (n % 10) hmod
    obtain ⟨_, _, hd3⟩ := digitChar_toNat (n % 10) hmod
    by_cases h0 : n / 10 = 0
    · have hlt : n < 10 := by omega
      have hmodn : n % 10 = n := Nat.mod_eq_of_lt hlt
      refine ⟨[Nat.digitChar (n % 10)], by simp [h0], by simp, ?_, ?_, ?_⟩
      · intro c hc
        have : c = Nat.digitChar (n % 10) := by simpa using hc
        rw [this]; exact hd1
      · intro hh
        have hc : Nat.digitChar (n % 10) = '0' := by simpa using hh
        have hz : n % 10 = 0 := hd2 hc
        refine ⟨by omega, ?_⟩
        rw [hc]
      · intro acc
        simp only [List.foldl_cons, List.foldl_nil, List.length_singleton, pow_one, hd3]
        omega
    · obtain ⟨xs, hxs, hne, hdig, hhead, hval⟩ :=
        ih (n / 10) (Nat.digitChar (n % 10) :: ds) (by omega)
      refine ⟨xs ++ [Nat.digitChar (n % 10)], by simp [h0, hxs], by simp, ?_, ?_, ?_⟩
      · intro c hc
        rcases List.mem_append.mp hc with h | h
        · exact hdig c h
        · have : c = Nat.digitChar (n % 10) := by simpa using h
          rw [this]; exact hd1
      · intro hh
        have : xs.head? = some '0' := by
          cases xs with
          | nil => exact absurd rfl hne
          | cons x rest => simpa using hh
        exact absurd (hhead this).1 h0
      · intro acc
        have hdm := Nat.div_add_mod n 10
        rw [List.foldl_append, hval acc]
        simp only [List.foldl_cons, List.foldl_nil, hd3, List.length_append,
          List.length_singleton, pow_succ]
        have he : acc * (10 ^ xs.length * 10) = acc * 10 ^ xs.length * 10 := by ring
        rw [he]
        omega

theorem repr_canonical (n : Nat) : IsCanonicalNumeral (Nat.repr n).data n := by
  obtain ⟨xs, hxs, hne, hdig, hhead, hval⟩ := toDigitsCore_canonical (n + 1) n [] (by omega)
  have hdata : (Nat.repr n).data = xs := by
    simp [Nat.repr, Nat.toDigits, List.asString, hxs]
  rw [hdata]
  refine ⟨hne, hdig, fun h => (hhead h).2, ?_⟩
  have := hval 0
  simpa [digitsValue] using this

theorem Value_integer_canonical (f : Float64 → String) (b : Builder) :
    (∀ i : Int,
        b.Value f (GoValue.int i)
          = ⟨{ b with buffer := b.buffer ++ FormatInt i ++ ",", afterName := false }, none⟩ ∧
        (0 ≤ i → IsCanonicalNumeral (FormatInt i).data i.toNat) ∧
        (i < 0 → ∃ cs : List Char, (FormatInt i).data = '-' :: cs ∧
          IsCanonicalNumeral cs i.natAbs)) ∧
      ∀ n : Nat,
        b.Value f (GoValue.uint n)
          = ⟨{ b with buffer := b.buffer ++ FormatUint n ++ ",", afterName := false }, none⟩ ∧
        IsCanonicalNumeral (FormatUint n).data n := by
  refine ⟨fun i => ⟨rfl, ?_, ?_⟩, fun n => ⟨rfl, repr_canonical n⟩⟩
  · intro hi
    cases i with
    | ofNat n => exact repr_canonical n
    | negSucc n => exact absurd hi (by simp)
  · intro hi
    cases i with
    | ofNat n => exact absurd hi (by simp)
    | negSucc n =>
      refine ⟨(Nat.repr (n + 1)).data, ?_, repr_canonical (n + 1)⟩
      simp [FormatInt, String.data_append]

theorem gridStep_pos (t k : Int) : 0 < gridStep t k := by
  unfold gridStep
  positivity

theorem gridScale_pos (t k : Int) : 0 < gridScale t k := by
  unfold gridScale
  positivity

theorem closestIn_bounds (L X H G : Nat) (inclusive : Bool) (m : Nat) (hG : 0 < G)
    (h : closestIn L X H G inclusive = some m) : L ≤ m * G ∧ m * G ≤ H := by
  unfold closestIn at h
  simp only [] at h
  by_cases hle : (if inclusive = true then (L + G - 1) / G else L / G + 1)
      ≤ (if inclusive = true then H / G else (H - 1) / G)
  · rw [if_pos hle] at h
    have hm := Option.some.inj h
    have hmin : (if inclusive = true then (L + G - 1) / G else L / G + 1) ≤ m := by
      rw [← hm]; exact le_max_left _ _
    have hmax : m ≤ (if inclusive = true then H / G else (H - 1) / G) := by
      rw [← hm]; exact max_le hle (min_le_left _ _)
    have hlow : L ≤ (if inclusive = true then (L + G - 1) / G else L / G + 1) * G := by
      split
      · have hd := Nat.div_add_mod (L + G - 1) G
        have hmod := Nat.mod_lt (L + G - 1) hG
        have hc := Nat.mul_comm G ((L + G - 1) / G)
        omega
      · have hd := Nat.div_add_mod L G
        have hmod := Nat.mod_lt L hG
        have hc := Nat.mul_comm G (L / G)
        rw [Nat.add_mul]
        omega
    have hhigh : (if inclusive = true then H / G else (H - 1) / G) * G ≤ H := by
      split
      · exact Nat.div_mul_le_self H G
      · exact le_trans (Nat.div_mul_le_self (H - 1) G) (Nat.sub_le H 1)
    exact ⟨le_trans hlow (Nat.mul_le_mul_right G hmin),
      le_trans (Nat.mul_le_mul_right G hmax) hhigh⟩
  · rw [if_neg hle] at h
    exact absurd h (by simp)

theorem closestIn_isSome (L X H G : Nat) (inclusive : Bool) (m0 : Nat) (hG : 0 < G)
    (hL : L < m0 * G) (hH : m0 * G < H) : (closestIn L X H G inclusive).isSome = true := by
  have hmin : (if inclusive = true then (L + G - 1) / G else L / G + 1) ≤ m0 := by
    split
    · have : (L + G - 1) / G < m0 + 1 := by
        rw [Nat.div_lt_iff_lt_mul hG, Nat.add_mul]
        omega
      omega
    · have : L / G < m0 := by
        rw [Nat.div_lt_iff_lt_mul hG]
        exact hL
      omega
  have hmax : m0 ≤ (if inclusive = true then H / G else (H - 1) / G) := by
    split
    · rw [Nat.le_div_iff_mul_le hG]
      exact hH.le
    · rw [Nat.le_div_iff_mul_le hG]
      omega
  unfold closestIn
  simp only []
  rw [if_pos (le_trans hmin hmax)]
  rfl

theorem closestMultiple_bounds (loN xN hiN : Nat) (inclusive : Bool) (t k : Int) (m : Nat)
    (h : closestMultiple loN xN hiN inclusive t k = some m) :
    loN * gridScale t k ≤ m * gridStep t k ∧ m * gridStep t k ≤ hiN * gridScale t k :=
  closestIn_bounds _ _ _ _ inclusive m (gridStep_pos t k) h

theorem closestMultiple_isSome (loN xN hiN : Nat) (inclusive : Bool) (t k : Int) (m0 : Nat)
    (hm0 : m0 * gridStep t k = xN * gridScale t k) (hlo : loN < xN) (hhi : xN < hiN) :
    (closestMultiple loN xN hiN inclusive t k).isSome = true := by
  have hS := gridScale_pos t k
  refine closestIn_isSome _ _ _ _ inclusive m0 (gridStep_pos t k) ?_ ?_
  · rw [hm0]; exact Nat.mul_lt_mul_of_pos_right hlo hS
  · rw [hm0]; exact Nat.mul_lt_mul_of_pos_right hhi hS

theorem shortestLoop_nonneg (loN xN hiN : Nat) (inclusive : Bool) (t : Int)
    (hhit : (closestMultiple loN xN hiN inclusive t 0).isSome = true) :
    ∀ (fuel : Nat) (k : Int), 0 ≤ k → k.toNat < fuel →
      0 ≤ (shortestLoop loN xN hiN inclusive t fuel k).2 ∧
        closestMultiple loN xN hiN inclusive t (shortestLoop loN xN hiN inclusive t fuel k).2
          = some (shortestLoop loN xN hiN inclusive t fuel k).1 := by
  intro fuel
  induction fuel with
  | zero => intro k _ hk; omega
  | succ fuel ih =>
    intro k hk0 hk
    unfold shortestLoop
    cases hc : closestMultiple loN xN hiN inclusive t k with
    | some m => exact ⟨hk0, hc⟩
    | none =>
      have hne : k ≠ 0 := by
        intro h0
        rw [h0] at hc
        rw [hc] at hhit
        exact absurd hhit (by simp)
      exact ih (k - 1) (by omega) (by omega)

theorem mant_of_magnitude (mant : Nat) (E : Int) (N d : Nat) (hd : E - 52 = -(d : Int))
    (h : (mant : ℚ) * (2 : ℚ) ^ (E - 52) = N) : mant = N * 2 ^ d := by
  rw [hd, zpow_neg, zpow_natCast] at h
  have hpos : (2 : ℚ) ^ d ≠ 0 := by positivity
  have h2 : (mant : ℚ) = N * 2 ^ d := by
    field_simp at h
    exact h
  exact_mod_cast h2

theorem magnitude_grid (mant : Nat) (E : Int) (N : Nat)
    (h : (mant : ℚ) * (2 : ℚ) ^ (E - 52) = N) :
    ∃ m0 : Nat, m0 * gridStep (E - 54) 0 = 4 * mant * gridScale (E - 54) 0 := by
  unfold gridStep gridScale
  have hz : (0 : Int).toNat = 0 := rfl
  have hz' : (-(0 : Int)).toNat = 0 := rfl
  rw [hz, hz']
  rcases le_or_lt 54 E with hE | hE
  · have h1 : (-(E - 54)).toNat = 0 := by omega
    refine ⟨4 * mant * 2 ^ (E - 54).toNat, ?_⟩
    rw [h1]
    ring
  · have h1 : (E - 54).toNat = 0 := by omega
    rcases le_or_lt 52 E with hE2 | hE2
    · have h2 : (-(E - 54)).toNat = 1 ∨ (-(E - 54)).toNat = 2 := by omega
      rcases h2 with h2 | h2
      · refine ⟨2 * mant, ?_⟩
        rw [h1, h2]
        ring
      · refine ⟨mant, ?_⟩
        rw [h1, h2]
        ring
    · obtain ⟨d, hd⟩ : ∃ d : Nat, E - 52 = -(d : Int) := ⟨(52 - E).toNat, by omega⟩
      have hm := mant_of_magnitude mant E N d hd h
      have h2 : (-(E - 54)).toNat = d + 2 := by omega
      refine ⟨N, ?_⟩
      rw [h1, h2, hm, pow_add]
      ring

theorem exact_of_bounds (mant : Nat) (E : Int) (N loN m : Nat) (k : Int)
    (h : (mant : ℚ) * (2 : ℚ) ^ (E - 52) = N) (hE : E ≤ 52) (hk : 0 ≤ k)
    (hlo : 4 * mant - 2 ≤ loN)
    (hb : loN * gridScale (E - 54) k ≤ m * gridStep (E - 54) k ∧
      m * gridStep (E - 54) k ≤ (4 * mant + 2) * gridScale (E - 54) k) :
    m * 10 ^ k.toNat = N := by
  obtain ⟨d, hd⟩ : ∃ d : Nat, E - 52 = -(d : Int) := ⟨(52 - E).toNat, by omega⟩
  have hm := mant_of_magnitude mant E N d hd h
  have h1 : (E - 54).toNat = 0 := by omega
  have h2 : (-(E - 54)).toNat = d + 2 := by omega
  have h3 : (-k).toNat = 0 := by omega
  unfold gridStep gridScale at hb
  rw [h1, h2, h3, pow_zero, pow_zero, mul_one, mul_one, mul_one, ← Nat.mul_assoc] at hb
  obtain ⟨hb1, hb2⟩ := hb
  have hP : 4 ≤ 2 ^ (d + 2) := by
    have : 1 ≤ 2 ^ d := Nat.one_le_two_pow
    rw [pow_add]
    omega
  have h4 : 4 * mant = N * 2 ^ (d + 2) := by
    rw [hm, pow_add]; ring
  generalize 2 ^ (d + 2) = P at hb1 hb2 hP h4
  generalize m * 10 ^ k.toNat = V at hb1 hb2 ⊢
  have hb1' : 4 * mant - 2 ≤ V * P := le_trans hlo hb1
  have hb2' : V * P ≤ 4 * mant + 2 := hb2
  rw [h4] at hb1' hb2'
  rcases Nat.lt_trichotomy V N with hlt | heq | hgt
  · have : (V + 1) * P ≤ N * P := Nat.mul_le_mul_right P hlt
    rw [Nat.add_mul] at this
    omega
  · exact heq
  · have : (N + 1) * P ≤ V * P := Nat.mul_le_mul_right P hgt
    rw [Nat.add_mul] at this
    omega

theorem Float64_exp_le (bits : Float64) (N : Nat) (hN : bits.magnitude = N)
    (hlt : N < 2 ^ 53) : bits.exp ≤ 52 := by
  by_contra hcon
  have hE : 53 ≤ bits.exp := by omega
  have hexp : bits.expBits ≠ 0 := by
    intro h0
    unfold Float64.exp at hE
    rw [if_pos h0] at hE
    omega
  have hmant : 2 ^ 52 ≤ bits.mant := by
    unfold Float64.mant
    rw [if_neg hexp]
    omega
  obtain ⟨a, ha⟩ : ∃ a : Nat, bits.exp - 52 = (a : Int) + 1 := ⟨(bits.exp - 53).toNat, by omega⟩
  unfold Float64.magnitude at hN
  rw [ha, zpow_add₀ (by norm_num : (2 : ℚ) ≠ 0), zpow_natCast, zpow_one] at hN
  have h2 : bits.mant * (2 ^ a * 2) = N := by exact_mod_cast hN
  have h3 : 1 ≤ 2 ^ a := Nat.one_le_two_pow
  have h4 : bits.mant * 2 ≤ bits.mant * (2 ^ a * 2) :=
    Nat.mul_le_mul_left _ (by omega)
  omega

theorem FormatFloat_integral (bits : Float64) (hfin : bits.expBits ≠ 2 ^ 11 - 1) (N : Nat)
    (hN : bits.magnitude = N) :
    ∃ N1 : Nat, FormatFloat bits = (if bits.neg then "-" else "") ++ Nat.repr N1 ∧
      (N < 2 ^ 53 → N1 = N) := by
  unfold FormatFloat
  rw [if_neg hfin]
  simp only []
  by_cases hm : bits.mant = 0
  · rw [if_pos hm]
    refine ⟨0, rfl, fun _ => ?_⟩
    unfold Float64.magnitude at hN
    rw [hm] at hN
    have : ((0 : Nat) : ℚ) = N := by simpa using hN
    exact_mod_cast this
  · rw [if_neg hm]
    have hmpos : 0 < bits.mant := Nat.pos_of_ne_zero hm
    have hlo : (if bits.mantBits = 0 ∧ 1 < bits.expBits then 4 * bits.mant - 1
        else 4 * bits.mant - 2) < 4 * bits.mant := by
      split <;> omega
    have hlo2 : 4 * bits.mant - 2 ≤ (if bits.mantBits = 0 ∧ 1 < bits.expBits then
        4 * bits.mant - 1 else 4 * bits.mant - 2) := by
      split <;> omega
    generalize (if bits.mantBits = 0 ∧ 1 < bits.expBits then 4 * bits.mant - 1
        else 4 * bits.mant - 2) = loN at hlo hlo2 ⊢
    obtain ⟨m0, hm0⟩ := magnitude_grid bits.mant bits.exp N hN
    have hhit := closestMultiple_isSome loN (4 * bits.mant) (4 * bits.mant + 2)
      (decide (bits.mant % 2 = 0)) (bits.exp - 54) 0 m0 hm0 hlo (by omega)
    generalize hk0 : (Nat.toDigits 10 ((4 * bits.mant + 2) * 2 ^ (bits.exp - 54).toNat)).length
      = k0
    have hloop := shortestLoop_nonneg loN (4 * bits.mant) (4 * bits.mant + 2)
      (decide (bits.mant % 2 = 0)) (bits.exp - 54) hhit
      (k0 + (-(bits.exp - 54)).toNat + 1) (k0 : Int) (by omega) (by omega)
    cases hr : shortestLoop loN (4 * bits.mant) (4 * bits.mant + 2)
      (decide (bits.mant % 2 = 0)) (bits.exp - 54) (k0 + (-(bits.exp - 54)).toNat + 1)
      (k0 : Int) with
    | mk m k =>
      rw [hr] at hloop
      obtain ⟨hk, hcm⟩ := hloop
      simp only [] at hk hcm
      refine ⟨m * 10 ^ k.toNat, ?_, fun hlt => ?_⟩
      · simp only [fmtF, hk, if_true]
      · have hb := closestMultiple_bounds _ _ _ _ _ _ _ hcm
        exact exact_of_bounds bits.mant bits.exp N loN m k hN
          (Float64_exp_le bits N hN hlt) hk hlo2 hb

/-! ## The model of the standard library on well-formed input -/

theorem Compact_accepts_object : Compact "\x7b \"a\" : 1, \"b\" : [1.5e3, true, null, \"x\\n\"] \x7d " =
    Except.ok "\x7b\"a\":1,\"b\":[1.5e3,true,null,\"x\\n\"]\x7d" := by rfl

theorem Compact_accepts_empty_object : Compact "\x7b\x7d" = Except.ok "\x7b\x7d" := by rfl

theorem Split_sample : Split "a.b.1" '.' = ["a", "b", "1"] := by decide

theorem ParseUint_samples :
    ParseUint "4294967295" = some 4294967295 ∧ ParseUint "007" = some 7 ∧
      ParseUint "" = none ∧ ParseUint "+7" = none ∧ ParseUint "1x" = none := by decide

theorem floatToInt_of_trunc (x : ℚ) (n : Int)
    (hlo : -(2 : ℚ) ^ 63 - 1 < x) (hhi : x < (2 : ℚ) ^ 63)
    (h : (0 ≤ x ∧ (n : ℚ) ≤ x ∧ x < n + 1) ∨ (x < 0 ∧ (n : ℚ) - 1 < x ∧ x ≤ n)) :
    floatToInt x = n := by
  rw [floatToInt_in_range x hlo hhi]
  rcases h with ⟨h0, h1, h2⟩ | ⟨h0, h1, h2⟩
  · rw [(tdiv_num_den x).1 h0]
    exact Int.floor_eq_iff.mpr ⟨h1, h2⟩
  · rw [(tdiv_num_den x).2 h0]
    exact Int.ceil_eq_iff.mpr ⟨h1, h2⟩

theorem GetInt_samples :
    (Tree.mk (some (Value.number (29 / 10)))).GetInt [] = Result.ok 2 ∧
      (Tree.mk (some (Value.number (-29 / 10)))).GetInt [] = Result.ok (-2) ∧
      (Tree.mk (some (Value.number (6530219459687219 / 2251799813685248)))).GetInt []
        = Result.ok 2 ∧
      (Tree.mk (some (Value.number 3))).GetInt [5] = Result.ok 3 := by
  refine ⟨?_, ?_, ?_, by decide⟩
  · show Result.ok (floatToInt _) = _
    rw [floatToInt_of_trunc (29 / 10) 2 (by norm_num) (by norm_num) (Or.inl (by norm_num))]
  · show Result.ok (floatToInt _) = _
    rw [floatToInt_of_trunc (-29 / 10) (-2) (by norm_num) (by norm_num) (Or.inr (by norm_num))]
  · show Result.ok (floatToInt _) = _
    rw [floatToInt_of_trunc _ 2 (by norm_num) (by norm_num) (Or.inl (by norm_num))]

theorem FormatFloat_samples :
    FormatFloat 0x4008000000000000 = "3" ∧
      FormatFloat 0x3FB999999999999A = "0.1" ∧
      FormatFloat 0xC004000000000000 = "-2.5" ∧
      FormatFloat 0x40091EB851EB851F = "3.14" ∧
      FormatFloat 0x3FD5555555555555 = "0.3333333333333333" ∧
      FormatFloat 0x4008CCCCC0000000 = "3.0999999046325684" ∧
      FormatFloat 0x3E7AD7F29ABCAF48 = "0.0000001" ∧
      FormatFloat 0x433FFFFFFFFFFFFF = "9007199254740991" ∧
      FormatFloat 0x43F0000000000000 = "18446744073709552000" ∧
      FormatFloat 0x444B1AE4D6E2EF50 = "1000000000000000000000" ∧
      FormatFloat 0x44B52D02C7E14AF6 = "100000000000000000000000" ∧
      FormatFloat 0x8000000000000000 = "-0" ∧
      FormatFloat 0x7FF0000000000000 = "+Inf" ∧
      FormatFloat 0x7FF8000000000001 = "NaN" := by
  refine ⟨?_, ?_, ?_, ?_, ?_, ?_, ?_, ?_, ?_, ?_, ?_, ?_, ?_, ?_⟩ <;> decide

/-! ## The claims -/

/-- C1 (defect in the code): from the empty builder, `BeginObject` then
`EndObject` leave the buffer `{},` with the separator written by `EndObject`
still at its end; `Bytes` hands the buffer to `json.Compact` as it is, and panics
with the error `json.Compact` returns for the comma after the top-level value.
It does not return `{}`. -/
theorem C1_Bytes_empty_object_panics (f : Float64 → String) :
    Builder.chain f Builder.empty [Call.BeginObject, Call.EndObject]
        = ⟨⟨[], "\x7b\x7d,", false⟩, none⟩ ∧
      (Builder.chain f Builder.empty [Call.BeginObject, Call.EndObject]).self.Bytes
        = Result.panic "invalid character ',' after top-level value" := by
  constructor <;> rfl

/-- C2 (defect in the code): the chain
`BeginObject().Name("a").Value(1).Name("b").Value("x").EndObject()` on the empty
builder leaves the buffer `{"a":1,"b":"x",},`: every `Value` writes a comma after
the value, also after the last member, and `EndObject` writes one after the
closing brace.  `Bytes` panics on it; it does not return `{"a":1,"b":"x"}`. -/
theorem C2_Bytes_members_panics (f : Float64 → String) :
    Builder.chain f Builder.empty [Call.BeginObject, Call.Name "a", Call.Value (GoValue.int 1),
        Call.Name "b", Call.Value (GoValue.string "x"), Call.EndObject]
        = ⟨⟨[], "\x7b\"a\":1,\"b\":\"x\",\x7d,", false⟩, none⟩ ∧
      (Builder.chain f Builder.empty [Call.BeginObject, Call.Name "a",
        Call.Value (GoValue.int 1), Call.Name "b", Call.Value (GoValue.string "x"),
        Call.EndObject]).self.Bytes
        = Result.panic "invalid character '\x7d' looking for beginning of object key string" := by
  constructor <;> rfl

/-- C3 (defect in the code): on the tree parsed from `{"a":{"b":[1,2,3]}}`,
`Select("a.c")` returns the valid tree of the object `{"b":[1,2,3]}`: at the
segment `c`, which is no field of that object, the current node is left as it
is.  So `Has("a.c")` is true, not false. -/
theorem C3_Has_missing_field_true :
    sample.Select "a.c" = Result.ok ⟨some (Value.object [("b",
        Value.array [Value.number 1, Value.number 2, Value.number 3])])⟩ ∧
      sample.Has "a.c" = Result.ok true := by
  constructor <;> rfl

/-- C4 (defect in the code): on the tree parsed from `{"a":{"b":[1,2,3]}}`,
`Select("a.b.9")` panics at the index expression, since index 9 is not below
the length 3 of the array; it does not return an invalid Tree.  A segment that
does not parse, as in `Select("a.b.x")`, does give the invalid Tree. -/
theorem C4_Select_index_out_of_range_panics :
    sample.Select "a.b.9" = Result.panic "index out of range" ∧
      sample.Select "a.b.x" = Result.ok ⟨none⟩ := by
  constructor <;> rfl

/-- C5, the claim as stated fails: `Select("a")` on a Tree whose referent is
Null returns that same Tree, which is valid. -/
theorem C5_Select_on_null_is_valid :
    (Tree.mk (some Value.null)).Select "a" = Result.ok ⟨some Value.null⟩ ∧
      (Tree.mk (some Value.null)).IsValid = true := by
  constructor <;> rfl

/-- C5 as amended: for every selector, `Select` on a Tree whose referent is a
String, a Number or a Bool returns the invalid Tree (`IsValid` is false), and
`Select` on a Tree whose referent is Null returns the Tree itself. -/
theorem C5_Select_on_scalar (selector : String) :
    (∀ s : String, (Tree.mk (some (Value.string s))).Select selector = Result.ok ⟨none⟩) ∧
      (∀ x : ℚ, (Tree.mk (some (Value.number x))).Select selector = Result.ok ⟨none⟩) ∧
      (∀ b : Bool, (Tree.mk (some (Value.bool b))).Select selector = Result.ok ⟨none⟩) ∧
      (Tree.mk (some Value.null)).Select selector = Result.ok ⟨some Value.null⟩ ∧
      (Tree.mk none).IsValid = false := by
  obtain ⟨seg, rest, hsplit⟩ := List.exists_cons_of_ne_nil (Split_ne_nil selector '.')
  refine ⟨?_, ?_, ?_, rfl, rfl⟩ <;> intro _ <;> simp [Tree.Select, hsplit, selectLoop]

/-- C6, the claim as stated fails: in an array of 4294967297 elements the
segment `4294967296` is the decimal numeral of an index smaller than the array
length, and `Select` returns the invalid Tree, since `strconv.ParseUint` is
called with a bit size of 32. -/
theorem C6_Select_index_above_32_bits :
    Resolves (fun _ => True) (Value.array (List.replicate 4294967297 Value.null))
        (Split "4294967296" '.') Value.null ∧
      (Tree.mk (some (Value.array (List.replicate 4294967297 Value.null)))).Select "4294967296"
        = Result.ok ⟨none⟩ := by
  have hsplit : Split "4294967296" '.' = ["4294967296"] := by decide
  have hrepr : Nat.repr 4294967296 = "4294967296" := by decide
  constructor
  · rw [hsplit, ← hrepr]
    exact Resolves_replicate_null 4294967297 4294967296 (by decide)
  · rw [Select_array, hsplit]
    exact selectLoop_array_unparsed _ "4294967296" [] (by decide)

/-- C6 as amended: for every valid Tree and every selector all of whose
segments resolve in turn (each segment met at an Object is an existing field
name, each segment met at an Array is the decimal numeral of an index smaller
than the array length and smaller than 2^32), `Select` returns a valid Tree
whose referent is exactly the value reached. -/
theorem C6_Select_of_Resolves (v w : Value) (selector : String)
    (h : Resolves (fun i => i < 2 ^ 32) v (Split selector '.') w) :
    (Tree.mk (some v)).Select selector = Result.ok ⟨some w⟩ ∧
      (Tree.mk (some w)).IsValid = true := by
  refine ⟨?_, rfl⟩
  have hloop := selectLoop_of_Resolves v w _ h
  have hne := Split_ne_nil selector '.'
  generalize hseg : Split selector '.' = segs at h hloop hne
  cases h with
  | done v => exact absurd rfl hne
  | field fields s v rest w hl hr => rw [← hloop, ← hseg]; rfl
  | index elems i rest w hlen hi hr => rw [← hloop, ← hseg]; rfl

/-- C6, an instance: on the tree parsed from `{"a":{"b":[1,2,3]}}` the segments
of `a.b.1` resolve to the Number 2, and `Select("a.b.1")` yields it. -/
theorem C6_Select_of_Resolves_witness :
    Resolves (fun i => i < 2 ^ 32)
        (Value.object [("a", Value.object [("b",
          Value.array [Value.number 1, Value.number 2, Value.number 3])])])
        (Split "a.b.1" '.') (Value.number 2) ∧
      (sample.Select "a.b.1" = Result.ok ⟨some (Value.number 2)⟩ ∧
        (Tree.mk (some (Value.number 2))).IsValid = true) :=
  have h : Resolves (fun i => i < 2 ^ 32)
      (Value.object [("a", Value.object [("b",
        Value.array [Value.number 1, Value.number 2, Value.number 3])])])
      (Split "a.b.1" '.') (Value.number 2) :=
    Resolves.field _ "a" _ _ _ rfl (Resolves.field _ "b" _ _ _ rfl
      (Resolves.index _ 1 [] _ (by decide) (by decide) (Resolves.done _)))
  ⟨h, C6_Select_of_Resolves _ _ "a.b.1" h⟩

/-- C7 (defect in the code): on the empty builder `BeginArray` then `EndObject`
is accepted: the frame `BeginArray` pushed is tagged `inObject`, so `EndObject`
pops it and writes the closing brace and a comma after the opening bracket.
The other half holds: after `BeginObject`, `EndArray` panics and the buffer is
unchanged. -/
theorem C7_EndObject_closes_array (f : Float64 → String) :
    Builder.chain f Builder.empty [Call.BeginArray, Call.EndObject]
        = ⟨⟨[], "[\x7d,", false⟩, none⟩ ∧
      Builder.chain f Builder.empty [Call.BeginObject, Call.EndArray]
        = ⟨⟨[state.inObject], "\x7b", false⟩,
            some "EndArray() called not at the end of an array"⟩ := by
  constructor <;> rfl

/-- C8 (defect in the code): on the empty builder `BeginArray` succeeds, writes
the opening bracket and clears `afterName`, but the frame it pushes is tagged
`inObject`; and in every state the current context after a call of `BeginArray`
is `inObject`, never `inArray`. -/
theorem C8_BeginArray_pushes_inObject :
    Builder.empty.BeginArray = ⟨⟨[state.inObject], "[", false⟩, none⟩ ∧
      ∀ b : Builder, b.BeginArray.self.state = state.inObject := by
  refine ⟨rfl, fun b => ?_⟩
  unfold Builder.BeginArray
  split
  · assumption
  · simp [Builder.state]

/-- C9 (defect in the code): after `BeginObject().Name("a")` on the empty
builder, where the context is Object and a Name has just been written, both
`BeginObject` and `BeginArray` panic with a message that asks for `Name()`
first; and they panic in every state whose context is Object, whatever
`afterName` is. -/
theorem C9_Begin_after_Name_panics (f : Float64 → String) :
    Builder.chain f Builder.empty [Call.BeginObject, Call.Name "a", Call.BeginObject]
        = ⟨⟨[state.inObject], "\x7b\"a\":", true⟩,
            some "Can't BeginObject() in an object, need Name() first"⟩ ∧
      Builder.chain f Builder.empty [Call.BeginObject, Call.Name "a", Call.BeginArray]
        = ⟨⟨[state.inObject], "\x7b\"a\":", true⟩,
            some "Can't BeginArray() in an object, need Name() first"⟩ ∧
      ∀ stack buffer afterName, Builder.state ⟨stack, buffer, afterName⟩ = state.inObject →
        (Builder.BeginObject ⟨stack, buffer, afterName⟩).panic.isSome = true ∧
        (Builder.BeginArray ⟨stack, buffer, afterName⟩).panic.isSome = true := by
  refine ⟨rfl, rfl, ?_⟩
  intro stack buffer afterName h
  simp [Builder.BeginObject, Builder.BeginArray, h]

/-- C10 (defect in the code): in every builder state, `Value(nil)` writes `null`
and then panics in the default case of the switch: no separator is written and
`afterName` is left as it was. -/
theorem C10_Value_nil_panics (f : Float64 → String) (b : Builder) :
    b.Value f GoValue.nil
      = ⟨{ b with buffer := b.buffer ++ "null" }, some "Type not supported as JSON value"⟩ := by
  rfl

/-- C12: `IsValid` is true iff a referent exists, and the six other predicates
are as the referent says: all false without a referent, only `IsNull` true for
Null, and otherwise `IsNull` false and exactly the one type predicate of the
referent's case true.  The tuple is (`IsString`, `IsNumber`, `IsObject`,
`IsArray`, `IsBool`, `IsNull`). -/
theorem C12_predicates (t : Tree) :
    t.IsValid = t.Data.isSome ∧
      (t.IsString, t.IsNumber, t.IsObject, t.IsArray, t.IsBool, t.IsNull) =
        match t.Data with
        | none => (false, false, false, false, false, false)
        | some Value.null => (false, false, false, false, false, true)
        | some (Value.string _) => (true, false, false, false, false, false)
        | some (Value.number _) => (false, true, false, false, false, false)
        | some (Value.object _) => (false, false, true, false, false, false)
        | some (Value.array _) => (false, false, false, true, false, false)
        | some (Value.bool _) => (false, false, false, false, true, false) := by
  obtain ⟨d⟩ := t
  cases d with
  | none => exact ⟨rfl, rfl⟩
  | some v => cases v <;> exact ⟨rfl, rfl⟩

/-- C13: on a Tree that is invalid or whose referent is Null, each of
`GetString`, `GetInt`, `GetFloat` and `GetBool` returns the first default when
one is given, and otherwise the zero value of its type, and does not panic. -/
theorem C13_getters_default (t : Tree) (h : t.IsValid = false ∨ t.IsNull = true) :
    (∀ (d : String) (ds : List String), t.GetString (d :: ds) = Result.ok d) ∧
      t.GetString [] = Result.ok "" ∧
      (∀ (d : Int) (ds : List Int), t.GetInt (d :: ds) = Result.ok d) ∧
      t.GetInt [] = Result.ok 0 ∧
      (∀ (d : ℚ) (ds : List ℚ), t.GetFloat (d :: ds) = Result.ok d) ∧
      t.GetFloat [] = Result.ok 0 ∧
      (∀ (d : Bool) (ds : List Bool), t.GetBool (d :: ds) = Result.ok d) ∧
      t.GetBool [] = Result.ok false := by
  obtain ⟨d⟩ := t
  cases d with
  | none => exact ⟨fun _ _ => rfl, rfl, fun _ _ => rfl, rfl, fun _ _ => rfl, rfl, fun _ _ => rfl, rfl⟩
  | some v =>
    cases v with
    | null => exact ⟨fun _ _ => rfl, rfl, fun _ _ => rfl, rfl, fun _ _ => rfl, rfl, fun _ _ => rfl, rfl⟩
    | _ => simp [Tree.IsValid, Tree.IsNull] at h

/-- C13, an instance: on the invalid Tree `GetString()` is the empty text and
`GetString("fallback")` is `fallback`. -/
theorem C13_getters_default_witness :
    (Tree.mk none).GetString [] = Result.ok "" ∧
      (Tree.mk none).GetString ["fallback"] = Result.ok "fallback" :=
  have h := C13_getters_default (Tree.mk none) (Or.inl rfl)
  ⟨h.2.1, h.1 "fallback" []⟩

/-- C14: on a valid Tree with a referent that is not Null, each typed getter
returns the stored value when the referent's case matches it (String for
`GetString`, Number for `GetInt`, converted to `int`, and for `GetFloat`, Bool
for `GetBool`), and panics with the runtime's type assertion error when it does
not, whatever defaults are passed: it panics iff the matching type predicate
is false. -/
theorem C14_getters_type_error (v : Value) : v ≠ Value.null →
    (∀ ds : List String,
        (Tree.mk (some v)).GetString ds =
          (match v with
            | Value.string s => Result.ok s
            | _ => Result.panic (typeAssertionError v "string")) ∧
        ((Tree.mk (some v)).GetString ds).isPanic = !(Tree.mk (some v)).IsString) ∧
      (∀ ds : List Int,
        (Tree.mk (some v)).GetInt ds =
          (match v with
            | Value.number x => Result.ok (floatToInt x)
            | _ => Result.panic (typeAssertionError v "float64")) ∧
        ((Tree.mk (some v)).GetInt ds).isPanic = !(Tree.mk (some v)).IsNumber) ∧
      (∀ ds : List ℚ,
        (Tree.mk (some v)).GetFloat ds =
          (match v with
            | Value.number x => Result.ok x
            | _ => Result.panic (typeAssertionError v "float64")) ∧
        ((Tree.mk (some v)).GetFloat ds).isPanic = !(Tree.mk (some v)).IsNumber) ∧
      (∀ ds : List Bool,
        (Tree.mk (some v)).GetBool ds =
          (match v with
            | Value.bool b => Result.ok b
            | _ => Result.panic (typeAssertionError v "bool")) ∧
        ((Tree.mk (some v)).GetBool ds).isPanic = !(Tree.mk (some v)).IsBool) := by
  intro hv
  cases v with
  | null => exact absurd rfl hv
  | _ => exact ⟨fun _ => ⟨rfl, rfl⟩, fun _ => ⟨rfl, rfl⟩, fun _ => ⟨rfl, rfl⟩, fun _ => ⟨rfl, rfl⟩⟩

/-- C14, an instance: `GetInt` on a node holding the String `x` panics with the
type assertion error, with and without a default, and `GetString` returns `x`
whatever the default. -/
theorem C14_getters_type_error_witness :
    Value.string "x" ≠ Value.null ∧
      (Tree.mk (some (Value.string "x"))).GetInt []
        = Result.panic "interface conversion: interface \x7b\x7d is string, not float64" ∧
      (Tree.mk (some (Value.string "x"))).GetInt [7]
        = Result.panic "interface conversion: interface \x7b\x7d is string, not float64" ∧
      (Tree.mk (some (Value.string "x"))).GetString ["fallback"] = Result.ok "x" :=
  have hv : Value.string "x" ≠ Value.null := fun h => Value.noConfusion h
  have h := C14_getters_type_error (Value.string "x") hv
  ⟨hv, (h.2.1 []).1, (h.2.1 [7]).1, (h.1 ["fallback"]).1⟩

/-- C15: on a Tree whose referent is a Number `x` whose integer part fits a
64-bit `int`, `GetInt` returns `x` truncated toward zero: the integer `n` with
`|n| ≤ |x| < |n| + 1` and the sign of `x`, and the only such integer. -/
theorem C15_GetInt_truncates (x : ℚ) (ds : List Int)
    (hlo : -(2 : ℚ) ^ 63 - 1 < x) (hhi : x < (2 : ℚ) ^ 63) :
    ∃ n : Int, (Tree.mk (some (Value.number x))).GetInt ds = Result.ok n ∧
      (|(n : ℚ)| ≤ |x| ∧ |x| < |(n : ℚ)| + 1 ∧ (0 ≤ x → 0 ≤ n) ∧ (x ≤ 0 → n ≤ 0)) ∧
      ∀ m : Int, (|(m : ℚ)| ≤ |x| ∧ |x| < |(m : ℚ)| + 1 ∧ (0 ≤ x → 0 ≤ m) ∧ (x ≤ 0 → m ≤ 0)) →
        m = n := by
  refine ⟨Int.tdiv x.num x.den, ?_, tdiv_num_den_spec x, fun m hm => ?_⟩
  · show Result.ok (floatToInt x) = _
    rw [floatToInt_in_range x hlo hhi]
  · exact trunc_unique x m _ hm (tdiv_num_den_spec x)

/-- C16 (defect in the code): in every builder state `Value(nil)` panics after
it has written `null`, so the buffer after the rejected call is not the buffer
before it.  Every other call that panics leaves the buffer, the stack and
`afterName` as they were. -/
theorem C16_rejected_Value_nil_writes (f : Float64 → String) (b : Builder) :
    (b.Value f GoValue.nil).panic = some "Type not supported as JSON value" ∧
      (b.Value f GoValue.nil).self.buffer = b.buffer ++ "null" ∧
      (b.Value f GoValue.nil).self ≠ b ∧
      ∀ c : Call, c = Call.Value GoValue.nil ∨ (c.apply f b).panic = none ∨
        (c.apply f b).self = b := by
  refine ⟨rfl, rfl, ?_, ?_⟩
  · intro h
    exact append_null_ne b.buffer (congrArg Builder.buffer h)
  · intro c
    cases c with
    | BeginObject =>
      refine Or.inr ?_
      simp only [Call.apply, Builder.BeginObject]
      split
      · exact Or.inr rfl
      · exact Or.inl rfl
    | EndObject =>
      refine Or.inr ?_
      simp only [Call.apply, Builder.EndObject]
      split
      · exact Or.inr rfl
      · exact Or.inl rfl
    | BeginArray =>
      refine Or.inr ?_
      simp only [Call.apply, Builder.BeginArray]
      split
      · exact Or.inr rfl
      · exact Or.inl rfl
    | EndArray =>
      refine Or.inr ?_
      simp only [Call.apply, Builder.EndArray]
      split
      · exact Or.inr rfl
      · exact Or.inl rfl
    | Name name =>
      refine Or.inr ?_
      simp only [Call.apply, Builder.Name]
      split
      · exact Or.inr rfl
      · exact Or.inl rfl
    | Value value =>
      cases value with
      | nil => exact Or.inl rfl
      | other => exact Or.inr (Or.inr rfl)
      | _ => exact Or.inr (Or.inl rfl)

/-- C17, the claim as stated fails: in the state after
`BeginObject().Name("a")`, where the context is Object and a Name is pending, a
second `Name` is accepted; and in the state after `BeginObject()`, where the
context is Object and no Name is pending, `Value(1)` is accepted. -/
theorem C17_no_alternation_check :
    Builder.state ⟨[state.inObject], "\x7b\"a\":", true⟩ = state.inObject ∧
      Builder.Name ⟨[state.inObject], "\x7b\"a\":", true⟩ "b"
        = ⟨⟨[state.inObject], "\x7b\"a\":\"b\":", true⟩, none⟩ ∧
      Builder.state ⟨[state.inObject], "\x7b", false⟩ = state.inObject ∧
      Builder.Value (fun _ => "") ⟨[state.inObject], "\x7b", false⟩ (GoValue.int 1)
        = ⟨⟨[state.inObject], "\x7b1,", false⟩, none⟩ := by
  refine ⟨rfl, rfl, rfl, rfl⟩

/-- C17 as amended: in every state whose current context is Object, `Name` is
accepted whether or not a Name is pending and sets `afterName`, and `Value` of
a string, an integer, a float or a bool is accepted whether or not a Name is
pending and clears `afterName`; the one check of `afterName` is in `EndObject`,
which panics iff a Name is pending, so no accepted sequence closes an object
directly after a name. -/
theorem C17_alternation_only_at_EndObject (f : Float64 → String) (b : Builder)
    (h : b.state = state.inObject) :
    (∀ name : String, (b.Name name).panic = none ∧ (b.Name name).self.afterName = true) ∧
      (∀ v : GoValue, v = GoValue.nil ∨ v = GoValue.other ∨
        ((b.Value f v).panic = none ∧ (b.Value f v).self.afterName = false)) ∧
      (b.EndObject.panic.isSome = b.afterName) := by
  refine ⟨fun name => ?_, fun v => ?_, ?_⟩
  · simp [Builder.Name, h]
  · cases v with
    | nil => exact Or.inl rfl
    | other => exact Or.inr (Or.inl rfl)
    | _ => exact Or.inr (Or.inr ⟨rfl, rfl⟩)
  · cases ha : b.afterName <;> simp [Builder.EndObject, h, ha]

/-- C17, an instance: the state after `BeginObject().Name("a")` on the empty
builder. -/
theorem C17_alternation_only_at_EndObject_witness :
    Builder.state ⟨[state.inObject], "\x7b\"a\":", true⟩ = state.inObject ∧
      (Builder.Name ⟨[state.inObject], "\x7b\"a\":", true⟩ "b").panic = none ∧
      (Builder.EndObject ⟨[state.inObject], "\x7b\"a\":", true⟩).panic.isSome = true :=
  have h := C17_alternation_only_at_EndObject (fun _ => "")
    ⟨[state.inObject], "\x7b\"a\":", true⟩ rfl
  ⟨rfl, (h.1 "b").1, h.2.2⟩

/-- C19: in every state the empty builder reaches by a chain of calls, every
frame on the stack is tagged `inObject` and none `inArray`; so `EndArray`
panics there, and `EndObject` either panics or pops the last frame of a stack
that is not empty.  (A chain stops at the first call that panics, which leaves
the stack as it was, so this covers the states reached by successful calls.) -/
theorem C19_no_inArray_frame (f : Float64 → String) (calls : List Call) :
    (∀ s ∈ (Builder.chain f Builder.empty calls).self.stack, s = state.inObject) ∧
      (Builder.chain f Builder.empty calls).self.EndArray.panic
        = some "EndArray() called not at the end of an array" ∧
      ((Builder.chain f Builder.empty calls).self.EndObject.panic.isSome = true ∨
        ((Builder.chain f Builder.empty calls).self.stack ≠ [] ∧
          (Builder.chain f Builder.empty calls).self.EndObject.self.stack
            = (Builder.chain f Builder.empty calls).self.stack.dropLast)) := by
  have hinv := chain_all_inObject f calls Builder.empty (by intro s hs; cases hs)
  generalize (Builder.chain f Builder.empty calls).self = b at hinv
  refine ⟨hinv, ?_, ?_⟩
  · have hst := state_of_all_inObject b hinv
    have hne : b.state ≠ state.inArray := by
      rcases hst with h | h <;> rw [h] <;> decide
    simp [Builder.EndArray, hne]
  · by_cases hp : b.state ≠ state.inObject ∨ b.afterName = true
    · left
      simp [Builder.EndObject, hp]
    · right
      have hs : b.state = state.inObject := by
        by_contra hc
        exact hp (Or.inl hc)
      refine ⟨?_, by simp [Builder.EndObject, hp]⟩
      intro hnil
      have : b.state = state.atRoot := by simp [Builder.state, hnil]
      rw [this] at hs
      exact absurd hs (by decide)

/-- C11 (defect in the code): `Value` of a text writes the text between quotes
after `json.HTMLEscape`, which escapes only the three markup characters and the
two line separators.  A double quote, a backslash and a control character are
written raw: `Value("a\"b")` writes `"a"b",`, which is no string literal
(`json.Compact` rejects `"a"b"`), and the two characters backslash, `n` are
written as the escape that decodes to a line feed.  What holds: the text
written contains none of the three markup characters. -/
theorem C11_Value_string_not_json_escaped (f : Float64 → String) :
    Builder.Value f Builder.empty (GoValue.string "a\"b")
        = ⟨⟨[], "\"a\"b\",", false⟩, none⟩ ∧
      Compact "\"a\"b\"" = Except.error "invalid character 'b' after top-level value" ∧
      Builder.Value f Builder.empty (GoValue.string "a\\nb")
        = ⟨⟨[], "\"a\\nb\",", false⟩, none⟩ ∧
      Builder.Value f Builder.empty (GoValue.string "a\nb")
        = ⟨⟨[], "\"a\nb\",", false⟩, none⟩ ∧
      Compact "\"a\nb\"" = Except.error "invalid character '\n' in string literal" ∧
      Builder.Value f Builder.empty (GoValue.string "<a>&")
        = ⟨⟨[], "\"\\u003ca\\u003e\\u0026\",", false⟩, none⟩ ∧
      ∀ s : String, '<' ∉ (HTMLEscape s).data ∧ '>' ∉ (HTMLEscape s).data ∧
        '&' ∉ (HTMLEscape s).data := by
  refine ⟨rfl, rfl, rfl, rfl, rfl, rfl, fun s => ⟨?_, ?_, ?_⟩⟩
  · exact HTMLEscape_no_markup s _ (Or.inl rfl)
  · exact HTMLEscape_no_markup s _ (Or.inr (Or.inl rfl))
  · exact HTMLEscape_no_markup s _ (Or.inr (Or.inr rfl))

/-- C20, the claim as stated fails: on the tree parsed from `{"a":null}` no
selection panics, `Select("a.b")` is the invalid Tree, and
`Select("a").Select("b")` is the valid Tree of the Null value. -/
theorem C20_Select_through_null_differs :
    (Tree.mk (some (Value.object [("a", Value.null)]))).Select ("a" ++ "." ++ "b")
        = Result.ok ⟨none⟩ ∧
      (Tree.mk (some (Value.object [("a", Value.null)]))).Select "a"
        = Result.ok ⟨some Value.null⟩ ∧
      (Tree.mk (some Value.null)).Select "b" = Result.ok ⟨some Value.null⟩ ∧
      (Tree.mk none).IsValid = false ∧ (Tree.mk (some Value.null)).IsValid = true := by
  refine ⟨rfl, rfl, rfl, rfl, rfl⟩

/-- C20 as amended: when `t.Select(p)` returns a Tree `r` without a panic and
`r` does not hold Null (or `t` itself holds Null), `t.Select(p + "." + q)` is
the same result as `r.Select(q)`, a panic included.  When `r` holds Null and
`t` does not, the path gives the invalid Tree and the chain gives `r`. -/
theorem C20_Select_composes (t r : Tree) (p q : String)
    (hp : t.Select p = Result.ok r) :
    ((r.IsNull = false ∨ t.IsNull = true) → t.Select (p ++ "." ++ q) = r.Select q) ∧
      ((r.IsNull = true ∧ t.IsNull = false) →
        t.Select (p ++ "." ++ q) = Result.ok ⟨none⟩ ∧ r.Select q = Result.ok r) := by
  obtain ⟨d⟩ := t
  have hsel : ∀ (v : Value) (sel : String), v ≠ Value.null →
      (Tree.mk (some v)).Select sel = selectLoop ⟨some v⟩ (Split sel '.') := by
    intro v sel hv
    cases v with
    | null => exact absurd rfl hv
    | _ => rfl
  cases d with
  | none =>
    have hr : r = ⟨none⟩ := by
      have : Result.ok (Tree.mk none) = Result.ok r := hp
      injection this with h
      exact h.symm
    subst hr
    exact ⟨fun _ => rfl, fun h => by simp [Tree.IsNull] at h⟩
  | some v =>
    by_cases hv : v = Value.null
    · subst hv
      have hr : r = ⟨some Value.null⟩ := by
        have : Result.ok (Tree.mk (some Value.null)) = Result.ok r := hp
        injection this with h
        exact h.symm
      subst hr
      exact ⟨fun _ => rfl, fun h => by simp [Tree.IsNull] at h⟩
    · have hcomp := selectLoop_append (Split p '.') (Split q '.') v
      rw [← Split_append_sep, ← hsel v _ hv, ← hsel v p hv, hp] at hcomp
      have htnull : (Tree.mk (some v)).IsNull = false := by
        cases v with
        | null => exact absurd rfl hv
        | _ => rfl
      obtain ⟨rd⟩ := r
      cases rd with
      | none =>
        exact ⟨fun _ => hcomp, fun h => by simp [Tree.IsNull] at h⟩
      | some w =>
        by_cases hw : w = Value.null
        · subst hw
          refine ⟨fun h => ?_, fun _ => ⟨?_, rfl⟩⟩
          · rcases h with h | h
            · simp [Tree.IsNull] at h
            · rw [htnull] at h
              exact absurd h (by decide)
          · rw [hcomp]
            obtain ⟨seg, rest, hsplit⟩ := List.exists_cons_of_ne_nil (Split_ne_nil q '.')
            rw [hsplit]
            rfl
        · refine ⟨fun _ => ?_, fun h => ?_⟩
          · rw [hcomp, hsel w q hw]
          · have : (Tree.mk (some w)).IsNull = false := by
              cases w with
              | null => exact absurd rfl hw
              | _ => rfl
            rw [this] at h
            exact absurd h.1 (by decide)

/-- C20, an instance: on the tree parsed from `{"a":{"b":[1,2,3]}}`,
`Select("a.b" + "." + "1")` is `Select("a.b").Select("1")`. -/
theorem C20_Select_composes_witness :
    sample.Select "a.b"
        = Result.ok ⟨some (Value.array [Value.number 1, Value.number 2, Value.number 3])⟩ ∧
      sample.Select ("a.b" ++ "." ++ "1")
        = (Tree.mk (some (Value.array [Value.number 1, Value.number 2, Value.number 3]))).Select
            "1" :=
  ⟨rfl, (C20_Select_composes sample _ "a.b" "1" rfl).1 (Or.inl rfl)⟩

/-- C15, an instance: the Number 2.9. -/
theorem C15_GetInt_truncates_witness :
    (-(2 : ℚ) ^ 63 - 1 < 29 / 10 ∧ (29 / 10 : ℚ) < (2 : ℚ) ^ 63) ∧
      ∃ n : Int, (Tree.mk (some (Value.number (29 / 10)))).GetInt [] = Result.ok n ∧
        (|(n : ℚ)| ≤ |(29 / 10 : ℚ)| ∧ |(29 / 10 : ℚ)| < |(n : ℚ)| + 1 ∧
          ((0 : ℚ) ≤ 29 / 10 → 0 ≤ n) ∧ ((29 / 10 : ℚ) ≤ 0 → n ≤ 0)) ∧
        ∀ m : Int, (|(m : ℚ)| ≤ |(29 / 10 : ℚ)| ∧ |(29 / 10 : ℚ)| < |(m : ℚ)| + 1 ∧
          ((0 : ℚ) ≤ 29 / 10 → 0 ≤ m) ∧ ((29 / 10 : ℚ) ≤ 0 → m ≤ 0)) → m = n :=
  ⟨⟨by norm_num, by norm_num⟩, C15_GetInt_truncates (29 / 10) [] (by norm_num) (by norm_num)⟩

/-- C18, the claim as stated fails: `uintptr` is an unsigned integer type, its
kind `reflect.Uintptr` is none of the kinds the switch of `Value` lists (it is
one of the kinds of `GoValue.other`), and `Value(uintptr(5))` panics in the
default case without writing a numeral. -/
theorem C18_Value_uintptr_panics :
    Builder.Value FormatFloat Builder.empty GoValue.other
      = ⟨Builder.empty, some "Type not supported as JSON value"⟩ := by
  rfl

/-- C18 as amended: in every builder state, `Value` of an integer of kind Int,
Int8 .. Int64 or Uint, Uint8 .. Uint64 appends the canonical base-10 numeral of
the integer, after a `-` when it is negative, and then the separator; and
`Value` of a finite float whose value is integral appends an optional `-`, a
canonical numeral without decimal point or exponent and the separator, the
numeral being that of the value itself when the value is below 2^53.  `Value`
of the float 3.0 appends `3,`. -/
theorem C18_Value_numbers (b : Builder) :
    (∀ i : Int,
        b.Value FormatFloat (GoValue.int i)
          = ⟨{ b with buffer := b.buffer ++ FormatInt i ++ ",", afterName := false }, none⟩ ∧
        (0 ≤ i → IsCanonicalNumeral (FormatInt i).data i.toNat) ∧
        (i < 0 → ∃ cs : List Char, (FormatInt i).data = '-' :: cs ∧
          IsCanonicalNumeral cs i.natAbs)) ∧
      (∀ n : Nat,
        b.Value FormatFloat (GoValue.uint n)
          = ⟨{ b with buffer := b.buffer ++ FormatUint n ++ ",", afterName := false }, none⟩ ∧
        IsCanonicalNumeral (FormatUint n).data n) ∧
      (∀ (bits : Float64) (N : Nat), bits.expBits ≠ 2 ^ 11 - 1 → bits.magnitude = N →
        ∃ N1 : Nat,
          b.Value FormatFloat (GoValue.float bits)
            = ⟨{ b with
                 buffer := b.buffer ++ ((if bits.neg then "-" else "") ++ FormatUint N1) ++ ","
                 afterName := false }, none⟩ ∧
          IsCanonicalNumeral (FormatUint N1).data N1 ∧ (N < 2 ^ 53 → N1 = N)) ∧
      b.Value FormatFloat (GoValue.float 0x4008000000000000)
        = ⟨{ b with buffer := b.buffer ++ "3" ++ ",", afterName := false }, none⟩ := by
  obtain ⟨hint, huint⟩ := Value_integer_canonical FormatFloat b
  refine ⟨hint, huint, ?_, ?_⟩
  · intro bits N hfin hN
    obtain ⟨N1, hfmt, hexact⟩ := FormatFloat_integral bits hfin N hN
    refine ⟨N1, ?_, repr_canonical N1, hexact⟩
    show (⟨{ b with buffer := b.buffer ++ FormatFloat bits ++ ",", afterName := false }, none⟩ :
      Outcome) = _
    rw [hfmt]
    rfl
  · have h3 : FormatFloat 0x4008000000000000 = "3" := by decide
    show (⟨{ b with buffer := b.buffer ++ FormatFloat _ ++ ",", afterName := false }, none⟩ :
      Outcome) = _
    rw [h3]

/-- C18, instances on the empty builder: the float 3.0, whose bits are
`0x4008000000000000` and whose magnitude is 3, the int -5 and the uint 42. -/
theorem C18_Value_numbers_witness :
    (Float64.expBits 0x4008000000000000 ≠ 2 ^ 11 - 1 ∧
        Float64.magnitude 0x4008000000000000 = (3 : Nat)) ∧
      Builder.Value FormatFloat Builder.empty (GoValue.float 0x4008000000000000)
        = ⟨⟨[], "3,", false⟩, none⟩ ∧
      Builder.Value FormatFloat Builder.empty (GoValue.int (-5))
        = ⟨⟨[], "-5,", false⟩, none⟩ ∧
      Builder.Value FormatFloat Builder.empty (GoValue.uint 42)
        = ⟨⟨[], "42,", false⟩, none⟩ :=
  have h := C18_Value_numbers Builder.empty
  have hfin : Float64.expBits 0x4008000000000000 ≠ 2 ^ 11 - 1 := by decide
  have hmag : Float64.magnitude 0x4008000000000000 = (3 : Nat) := by
    have hm : Float64.mant 0x4008000000000000 = 3 * 2 ^ 51 := by decide
    have he : Float64.exp 0x4008000000000000 - 52 = -(51 : Nat) := by decide
    unfold Float64.magnitude
    rw [hm, he, zpow_neg, zpow_natCast]
    norm_num
  ⟨⟨hfin, hmag⟩, h.2.2.2.trans (by decide), (h.1 (-5)).1.trans (by decide),
    (h.2.1 42).1.trans (by decide)⟩

end JsonTree
